import Mathlib

/-!
Verification of the rusty-jsyc bytecode compiler core (src/compiler/src/scope.rs,
compiler.rs, instruction_set.rs) against its natural-language specification.

The Rust code is shallowly embedded: `&mut self` methods become functions
`State → Result × State` (an error still carries the mutated state, matching
Rust semantics where mutations before an early `?`-return persist in `self`);
`&self` accessors become plain functions returning `Except`.  `u8` registers
are embedded as `Nat`; no arithmetic is ever performed on them (they are only
moved between the free queue and scope frames), so no wrap-around modelling is
needed.  Rust `HashMap<String, Declaration>` is embedded as an association
list whose `insert` replaces the existing key; `VecDeque` as a `List` with the
front at the head.
-/

namespace Jsyc

/-- `pub type Register = u8;` — embedded as `Nat`; all registers the allocator
ever holds are below 255 (proved below), so the `u8` bound is never exceeded. -/
abbrev Register := Nat

/-- CompilerError (error.rs is not in src/). Modelled from the spec: two failure
classes, named-construct "unsupported" errors (`are_unsupported`/`is_unsupported`)
and structural errors carried as custom messages (`CompilerError::Custom`).
Source messages containing quote characters are reproduced without the quotes. -/
inductive CompilerError where
  | custom (msg : String)
  | unsupported (what : String)
deriving DecidableEq, Repr

/-- `Except.isOk` as a plain boolean, used to state resolvability of lookups. -/
def exOk {ε α : Type} : Except ε α → Bool
  | .ok _ => true
  | .error _ => false

instance {ε α : Type} [DecidableEq ε] [DecidableEq α] : DecidableEq (Except ε α) :=
  fun x y =>
    match x, y with
    | .ok a, .ok b =>
      if h : a = b then .isTrue (by rw [h]) else .isFalse (fun hc => h (Except.ok.inj hc))
    | .ok _, .error _ => .isFalse (fun hc => Except.noConfusion hc)
    | .error _, .ok _ => .isFalse (fun hc => Except.noConfusion hc)
    | .error a, .error b =>
      if h : a = b then .isTrue (by rw [h]) else .isFalse (fun hc => h (Except.error.inj hc))

/-- `struct Declaration { pub register: Register }` (scope.rs lines 7-12). -/
structure Declaration where
  register : Register
deriving DecidableEq, Repr

/-- `struct Scope { decls: HashMap<String, Declaration>, unnamed_reserved_registers:
VecDeque<Register> }` (scope.rs lines 14-19).  The hash map is embedded as an
association list; `HashMap` iteration order is unspecified in Rust, the list
order is one admissible linearization. -/
structure Scope where
  decls : List (String × Declaration)
  unnamed_reserved_registers : List Register
deriving DecidableEq, Repr

/-- `Scope::new` (scope.rs lines 23-28). -/
def Scope.new : Scope := ⟨[], []⟩

/-- `HashMap::insert`: replaces any existing entry for the key. -/
def insertDecl (m : List (String × Declaration)) (k : String) (v : Declaration) :
    List (String × Declaration) :=
  (k, v) :: m.eraseP (fun p => p.1 == k)

/-- `HashMap::get`. -/
def lookupDecl (m : List (String × Declaration)) (k : String) : Option Declaration :=
  (m.find? (fun p => p.1 == k)).map (fun p => p.2)

/-- `Scope::used_registers` (scope.rs lines 30-36): the frame's unnamed reserved
registers followed by the register of every declaration in the frame. -/
def Scope.used_registers (s : Scope) : List Register :=
  s.unnamed_reserved_registers ++ s.decls.map (fun p => p.2.register)

/-- `struct Scopes { scopes: Vec<Scope>, unused_register: VecDeque<Register> }`
(scope.rs lines 39-44).  The `Vec` grows at the top (`push`/`pop`/`last`), so it
is embedded with the **top frame at the head** of the list. -/
structure Scopes where
  scopes : List Scope
  unused_register : List Register
deriving DecidableEq, Repr

/-- `(0..n)` as a list, kept lazily unfoldable so concrete evaluation stays cheap. -/
def rangeFrom (start : Nat) : Nat → List Register
  | 0 => []
  | n + 1 => start :: rangeFrom (start + 1) n

/-- `Scopes::new` (scope.rs lines 48-53): one empty scope, and the free queue is
`(0..Register::max_value()).collect()` — the **half-open** range `0..255`,
i.e. the 255 registers `0,…,254` (255 itself is never in the pool). -/
def Scopes.new : Scopes := ⟨[Scope.new], rangeFrom 0 255⟩

/-- `Scopes::get_unused_register` (scope.rs lines 106-110): pops the front of the
free queue; errs when the pool is empty. -/
def Scopes.get_unused_register (s : Scopes) : Except CompilerError Register × Scopes :=
  match s.unused_register with
  | [] => (.error (.custom ("All registers are in use. Free up some registers by using less declarations")), s)
  | r :: rest => (.ok r, { s with unused_register := rest })

/-- `Scopes::current_scope` (scope.rs lines 87-91). -/
def Scopes.current_scope (s : Scopes) : Except CompilerError Scope :=
  match s.scopes with
  | [] => .error (.custom ("No current scope"))
  | f :: _ => .ok f

/-- `Scopes::add_decl` (scope.rs lines 55-62): allocates the next free register,
then binds it to the name in the current (top) frame.  When the frame stack is
empty the register has already been consumed before `current_scope_mut` fails,
exactly as in the Rust `?` sequencing. -/
def Scopes.add_decl (s : Scopes) (decl : String) : Except CompilerError Register × Scopes :=
  match s.get_unused_register with
  | (.error e, s') => (.error e, s')
  | (.ok r, s') =>
    match s'.scopes with
    | [] => (.error (.custom ("No current (mut) scope")), s')
    | f :: rest =>
      (.ok r, { s' with scopes := { f with decls := insertDecl f.decls decl ⟨r⟩ } :: rest })

/-- `Scopes::reserve_register` (scope.rs lines 64-66). -/
def Scopes.reserve_register (s : Scopes) : Except CompilerError Register × Scopes :=
  s.get_unused_register

/-- `Scopes::get_throwaway_register` (scope.rs lines 68-72): takes `&self` and
only peeks the front of the free queue — the allocator state is untouched,
which the embedding reflects by not returning a state at all. -/
def Scopes.get_throwaway_register (s : Scopes) : Except CompilerError Register :=
  match s.unused_register with
  | [] => .error (.custom ("All registers are in use. Free up some registers by using less declarations"))
  | r :: _ => .ok r

/-- `Scopes::get_var` (scope.rs lines 74-78): looks the name up in the current
(innermost) frame only. -/
def Scopes.get_var (s : Scopes) (var_name : String) : Except CompilerError Declaration :=
  match s.current_scope with
  | .error e => .error e
  | .ok f =>
    match lookupDecl f.decls var_name with
    | some d => .ok d
    | none => .error (.custom ("The declaration does not exist: " ++ var_name))

/-- `Scopes::enter_new_scope` (scope.rs lines 80-85): pushes a frame carrying a
full copy of the current frame's declarations and an empty temporary queue. -/
def Scopes.enter_new_scope (s : Scopes) : Except CompilerError Unit × Scopes :=
  match s.current_scope with
  | .error e => (.error e, s)
  | .ok f => (.ok (), { s with scopes := ⟨f.decls, []⟩ :: s.scopes })

/-- `Scopes::leave_current_scope` (scope.rs lines 99-104): pops the top frame
(erring only when **no** frame remains at all) and appends every register that
frame referenced — temporaries and all declarations, inherited ones included —
to the back of the free queue. -/
def Scopes.leave_current_scope (s : Scopes) : Except CompilerError Unit × Scopes :=
  match s.scopes with
  | [] => (.error (.custom ("Cannot leave inextsiting scope")), s)
  | f :: rest => (.ok (), ⟨rest, s.unused_register ++ f.used_registers⟩)

/-- The allocator states reachable by any sequence of state-mutating allocator
operations from `Scopes::new` (the operations taking `&mut self`). -/
inductive Reach : Scopes → Prop
  | new : Reach Scopes.new
  | add_decl {s : Scopes} (n : String) : Reach s → Reach (s.add_decl n).2
  | reserve {s : Scopes} : Reach s → Reach (s.reserve_register).2
  | enter {s : Scopes} : Reach s → Reach (s.enter_new_scope).2
  | leave {s : Scopes} : Reach s → Reach (s.leave_current_scope).2

/-- Every register recorded anywhere in the allocator (free queue, frame
temporaries, frame declarations) is below 255. -/
def ScopesInv (s : Scopes) : Prop :=
  (∀ r ∈ s.unused_register, r < 255) ∧
  (∀ f ∈ s.scopes, (∀ r ∈ f.unnamed_reserved_registers, r < 255) ∧
    (∀ p ∈ f.decls, p.2.register < 255))

/-- Iterated `reserve_register`, collecting every result in order. -/
def reserveManyResults : Nat → Scopes → List (Except CompilerError Register) × Scopes
  | 0, s => ([], s)
  | n + 1, s =>
    match s.reserve_register with
    | (r, s') =>
      match reserveManyResults n s' with
      | (rs, s'') => (r :: rs, s'')

/-- A scope-local allocator action performed between entering and leaving a
scope: declaring a name or reserving an anonymous register. -/
inductive ScopeOp
  | add (name : String)
  | reserve

/-- Run one scope-local action, keeping the mutated state. -/
def applyScopeOp : ScopeOp → Scopes → Scopes
  | .add n, s => (s.add_decl n).2
  | .reserve, s => (s.reserve_register).2

/-- Run a sequence of scope-local actions. -/
def applyScopeOps (ops : List ScopeOp) (s : Scopes) : Scopes :=
  ops.foldl (fun s op => applyScopeOp op s) s

/-- The allocator state after declaring a binding, entering a scope (which
copies the binding) and leaving that scope again. -/
def scopeRoundtrip : Scopes :=
  ((((Scopes.new.add_decl ("x")).2).enter_new_scope).2.leave_current_scope).2

/-- `Scope::reserve_register_back`. Modelled from the spec: the selector
reserves its constant-literal registers once, at construction, from the
allocator's free pool (the method itself is not under src/; per its name it
takes from the back of the free queue). -/
def Scopes.reserve_register_back (s : Scopes) : Except CompilerError Register × Scopes :=
  match s.unused_register.getLast? with
  | none => (.error (.custom ("All registers are in use. Free up some registers by using less declarations")), s)
  | some r => (.ok r, { s with unused_register := s.unused_register.dropLast })

/-- The instruction opcodes (the closed set listed in spec section 6, matching
the opcodes instruction_set.rs selects from). -/
inductive Instruction where
  | Copy | LoadString | LoadFloatNum | LoadLongNum | LoadNum
  | Add | Minus | Mul | Div
  | CompEqual | CompNotEqual | CompStrictEqual | CompStrictNotEqual
  | CompLessThan | CompGreaterThan | CompLessThanEqual | CompGreaterThanEqual
  | PropAccess | CallFunc | ReturnBytecodeFunc | Exit
deriving DecidableEq, Repr

/-- Operand (bytecode.rs is not under src/). Modelled from the spec: closed
tagged union of register reference, register list, string/number literal forms
and function/branch addresses.  Floating payloads are kept as text — the core
never constructs them. -/
inductive Operand where
  | Register (r : Register)
  | RegistersArray (rs : List Register)
  | String (s : String)
  | ShortNum (n : Nat)
  | FloatNum (t : String)
  | LongNum (n : Nat)
  | FunctionAddr (a : Nat)
  | BranchAddr (a : Nat)
deriving DecidableEq, Repr

/-- Command (bytecode.rs is not under src/). Modelled from the spec: an opcode
plus an ordered operand list. -/
structure Command where
  inst : Instruction
  operands : List Operand
deriving DecidableEq, Repr

/-- `Command::new`. -/
def Command.new (inst : Instruction) (operands : List Operand) : Command :=
  ⟨inst, operands⟩

/-- Bytecode (bytecode.rs is not under src/). Modelled from the spec: an
ordered, appendable, concatenable Command sequence. -/
abbrev Bytecode := List Command

/-- `Bytecode::new`. -/
def Bytecode.new : Bytecode := []

/-- `Bytecode::add`: appends one command (order preserving). -/
def Bytecode.add (bc : Bytecode) (cmd : Command) : Bytecode := bc ++ [cmd]

/-- `Bytecode::combine`: concatenation (order preserving). -/
def Bytecode.combine (bc other : Bytecode) : Bytecode := bc ++ other

/-- `Bytecode::last_op_is_return`. Modelled from the spec: decidable by
inspecting the final Command's opcode. -/
def Bytecode.last_op_is_return (bc : Bytecode) : Bool :=
  match bc.getLast? with
  | some ⟨.ReturnBytecodeFunc, _⟩ => true
  | _ => false

/-- Source literals, as consumed by the lowering.  The numeric small/long/float
classification is performed by bytecode.rs (not under src/); the embedded
literal carries its load class directly, following the spec's load selection. -/
inductive Literal where
  | str (s : String)
  | shortNum (n : Nat)
  | floatNum (t : String)
  | longNum (n : Nat)
deriving DecidableEq, Repr

/-- `Operand::from_literal` (bytecode.rs is not under src/). Modelled from the
spec: each literal kind is converted to the corresponding typed operand. -/
def Operand.from_literal : Literal → Except CompilerError Operand
  | .str s => .ok (.String s)
  | .shortNum n => .ok (.ShortNum n)
  | .floatNum t => .ok (.FloatNum t)
  | .longNum n => .ok (.LongNum n)

/-- `Operand::get_assign_instr_type` (bytecode.rs is not under src/). Modelled
from the spec's load selection — the same mapping as `InstructionSet::load_op`
(instruction_set.rs lines 85-98): string → LoadString, float → LoadFloatNum,
long → LoadLongNum, short → LoadNum, register → Copy.  Register arrays and
addresses have no load form (the source panics with unimplemented there); the
embedding maps them to Exit as an unreachable placeholder — no caller ever
produces them. -/
def Operand.get_assign_instr_type : Operand → Instruction
  | .String _ => .LoadString
  | .FloatNum _ => .LoadFloatNum
  | .LongNum _ => .LoadLongNum
  | .ShortNum _ => .LoadNum
  | .Register _ => .Copy
  | .RegistersArray _ => .Exit
  | .FunctionAddr _ => .Exit
  | .BranchAddr _ => .Exit

/-- `enum CommonLiteral` (instruction_set.rs lines 7-14). -/
inductive CommonLiteral where
  | Num0 | Num1 | Void0
deriving DecidableEq, Repr

/-- `CommonLiteral::idx` (instruction_set.rs lines 16-24). -/
def CommonLiteral.idx : CommonLiteral → Nat
  | .Num0 => 0
  | .Num1 => 1
  | .Void0 => 2

/-- `struct CommonLiteralRegs` (instruction_set.rs lines 26-30). -/
structure CommonLiteralRegs where
  regs : List Register
deriving DecidableEq, Repr

/-- `CommonLiteralRegs::new` (instruction_set.rs lines 33-46): reserves
`enum_size = 3` registers from the back of the allocator's free pool, in enum
order. -/
def CommonLiteralRegs.new (s : Scopes) : Except CompilerError CommonLiteralRegs × Scopes :=
  match s.reserve_register_back with
  | (.error e, s') => (.error e, s')
  | (.ok r0, s') =>
    match s'.reserve_register_back with
    | (.error e, s'') => (.error e, s'')
    | (.ok r1, s'') =>
      match s''.reserve_register_back with
      | (.error e, s3) => (.error e, s3)
      | (.ok r2, s3) => (.ok ⟨[r0, r1, r2]⟩, s3)

/-- `CommonLiteralRegs::reg` (instruction_set.rs lines 59-61): indexing a
three-element table; the out-of-range default 0 is unreachable (the table is
always built with exactly three entries). -/
def CommonLiteralRegs.reg (c : CommonLiteralRegs) (common_lit : CommonLiteral) : Register :=
  c.regs.getD common_lit.idx 0

/-- `struct InstructionSet` (instruction_set.rs lines 64-68). -/
structure InstructionSet where
  common_regs : CommonLiteralRegs
deriving DecidableEq, Repr

/-- `InstructionSet::default` (instruction_set.rs lines 71-75): builds the
common-literal register cache from the allocator.  The source unwraps the
result; the embedding propagates the (unreachable on a fresh pool) error. -/
def InstructionSet.default (s : Scopes) : Except CompilerError InstructionSet × Scopes :=
  match CommonLiteralRegs.new s with
  | (.error e, s') => (.error e, s')
  | (.ok regs, s') => (.ok ⟨regs⟩, s')

/-- `InstructionSet::common_literal_reg` (instruction_set.rs lines 81-83). -/
def InstructionSet.common_literal_reg (isa : InstructionSet)
    (common_lit : CommonLiteral) : Register :=
  isa.common_regs.reg common_lit

/-- The compound-assignment operators the selector handles
(instruction_set.rs lines 100-119).  The remaining resast compound operators
(`%=`, shifts, bitwise, power) reach `unimplemented!` in the source — an abort
of the whole process rather than a returned error (spec section 7 flags this) —
and are therefore outside the embedding's operator type. -/
inductive AssignmentOperator where
  | Equal | PlusEqual | MinusEqual | TimesEqual | DivEqual
deriving DecidableEq, Repr

/-- `enum UpdateOperator` (resast): prefix and postfix `++`/`--`. -/
inductive UpdateOperator where
  | Increment | Decrement
deriving DecidableEq, Repr

/-- The unary operators as dispatched by `InstructionSet::unary_op`
(instruction_set.rs lines 135-156): minus and plus are selected, `void` must be
handled by the caller, and the remaining resast operators (not, tilde, typeof,
delete) fall to the unsupported-operation error, represented by `other`. -/
inductive UnaryOperator where
  | Minus | Plus | Void | other
deriving DecidableEq, Repr

/-- `InstructionSet::assignment_op` (instruction_set.rs lines 100-119): the
operation is performed in place on the left register (`rd, rd, rs`). -/
def InstructionSet.assignment_op (_ : InstructionSet) (op : AssignmentOperator)
    (rd rs : Register) : Command :=
  let instr : Instruction :=
    match op with
    | .Equal => .Copy
    | .PlusEqual => .Add
    | .MinusEqual => .Minus
    | .TimesEqual => .Mul
    | .DivEqual => .Div
  Command.new instr [.Register rd, .Register rd, .Register rs]

/-- `InstructionSet::update_op` (instruction_set.rs lines 121-133): add or
subtract the pre-cached constant-1 register, writing back into the same
register. -/
def InstructionSet.update_op (isa : InstructionSet) (op : UpdateOperator)
    (rd : Register) : Command :=
  let instr : Instruction :=
    match op with
    | .Increment => .Add
    | .Decrement => .Minus
  Command.new instr [.Register rd, .Register rd,
    .Register (isa.common_literal_reg CommonLiteral.Num1)]

/-- `InstructionSet::unary_op` (instruction_set.rs lines 135-156): `0 - x` or
`0 + x` against the pre-cached constant-0 register; `void` is rejected here. -/
def InstructionSet.unary_op (isa : InstructionSet) (op : UnaryOperator)
    (rd rs : Register) : Except CompilerError Command :=
  match op with
  | .Minus => .ok (Command.new .Minus [.Register rd,
      .Register (isa.common_literal_reg CommonLiteral.Num0), .Register rs])
  | .Plus => .ok (Command.new .Add [.Register rd,
      .Register (isa.common_literal_reg CommonLiteral.Num0), .Register rs])
  | .Void => .error (.custom ("The void must be handled on compiler-level"))
  | .other => .error (.unsupported ("Unary operation"))

/-- resast `Pat`: identifier patterns are the only accepted binding targets;
array/object/rest/assignment patterns are rejected wherever they occur, so
their payloads are irrelevant to the embedding. -/
inductive Pat where
  | identifier (name : String)
  | array
  | object
  | restElement
  | assignmentPat
deriving DecidableEq, Repr

/-- resast `VariableKind`. -/
inductive VariableKind where
  | Var | Let | Const
deriving DecidableEq, Repr

/- The expression grammar as dispatched by `compile_expr` (compiler.rs lines
190-219).  Constructs the compiler rejects by name are nullary here (their
payloads are never inspected); `otherExpr` stands for every remaining resast
variant (array, binary, conditional, logical, new, object, sequence, this,
template), all of which fall to the generic unsupported-expression error. -/
mutual
inductive Expr where
  | ident (name : String)
  | literal (lit : Literal)
  | call (callee : Expr) (arguments : List Expr)
  | member (object : Expr) (property : Expr)
  | assignment (operator : AssignmentOperator) (left : AssignmentLeft) (right : Expr)
  | update (operator : UpdateOperator) (isPre : Bool) (argument : Expr)
  | unary (operator : UnaryOperator) (isPre : Bool) (argument : Expr)
  | arrowFunction
  | arrowParamPlaceHolder
  | awaitExpr
  | classExpr
  | functionExpr
  | metaProperty
  | spread
  | superExpr
  | taggedTemplate
  | yieldExpr
  | otherExpr

inductive AssignmentLeft where
  | pat (p : Pat)
  | expr (e : Expr)
end

/-- resast `VariableDecl`: a binding target and an optional initializer. -/
inductive VariableDecl where
  | mk (id : Pat) (init : Option Expr)

/-- Projection: the binding target. -/
def VariableDecl.id : VariableDecl → Pat
  | .mk i _ => i

/-- Projection: the optional initializer. -/
def VariableDecl.init : VariableDecl → Option Expr
  | .mk _ i => i

/-- resast `FunctionArg`. -/
inductive FunctionArg where
  | expr (e : Expr)
  | pat (p : Pat)

/- The program-part / declaration / statement grammar as dispatched by
`compile_program_part`, `compile_decl` and `compile_stmt` (compiler.rs lines
73-138).  `otherStmt` stands for the remaining resast statement variants
(labeled, break, continue, if, switch, while, do-while, for), which fall to the
generic unsupported-statement error.  `Function` mirrors resast's record:
optional name, parameters, body, generator/async flags. -/
mutual
inductive ProgramPart where
  | dir
  | decl (d : Decl)
  | stmt (s : Stmt)

inductive Decl where
  | variable (kind : VariableKind) (decls : List VariableDecl)
  | function (f : Function)
  | classDecl
  | importDecl
  | exportDecl

inductive Stmt where
  | expr (e : Expr)
  | block (body : List ProgramPart)
  | empty
  | debugger
  | withStmt
  | returnStmt (arg : Option Expr)
  | throwStmt
  | tryStmt
  | forIn
  | forOf
  | varStmt (decls : List VariableDecl)
  | otherStmt

inductive Function where
  | mk (id : Option String) (params : List FunctionArg) (body : List ProgramPart)
      (generator : Bool) (is_async : Bool)
end

/-- Projection: the function's optional name. -/
def Function.id : Function → Option String
  | .mk i _ _ _ _ => i

/-- Projection: the function's parameters. -/
def Function.params : Function → List FunctionArg
  | .mk _ p _ _ _ => p

/-- Projection: the function's body. -/
def Function.body : Function → List ProgramPart
  | .mk _ _ b _ _ => b

/-- resast `Program`: a Script, or a Module (rejected by the compiler). -/
inductive Program where
  | moduleProgram
  | script (parts : List ProgramPart)

/-- `struct BytecodeFunction` (compiler.rs lines 17-23): a compiled body
pending placement, its parameter registers, and the retained AST node. -/
structure BytecodeFunction where
  bytecode : Bytecode
  arguments : List Register
  ast : Option Function

/-- `struct BytecodeCompiler` (compiler.rs lines 25-31). -/
structure BytecodeCompiler where
  scopes : Scopes
  functions : List BytecodeFunction
  isa : InstructionSet

/-- `BytecodeCompiler::new` (compiler.rs lines 35-41).  compiler.rs calls
`InstructionSet::default()` with no argument while instruction_set.rs declares
`default(scope: &mut Scope)` — a genuine inconsistency between the source
files; following the spec (section 9: the selector always receives the
allocator it needs to reserve its constant-literal registers), the selector is
constructed from the fresh allocator, on which the three reservations cannot
fail (the source unwraps; the error arm is unreachable). -/
def BytecodeCompiler.new : BytecodeCompiler :=
  match InstructionSet.default Scopes.new with
  | (.ok isa, s) => ⟨s, [], isa⟩
  | (.error _, s) => ⟨s, [], ⟨⟨[]⟩⟩⟩

/-- `BytecodeCompiler::compile_operand_assignment` (compiler.rs lines 334-336). -/
def compile_operand_assignment (left : Register) (right : Operand) :
    Except CompilerError Bytecode :=
  .ok (Bytecode.add Bytecode.new
    (Command.new (right.get_assign_instr_type) [Operand.Register left, right]))

/-- The parameter-binding loop of `compile_func` (compiler.rs lines 303-314):
each parameter must be a plain identifier and is bound to a fresh register. -/
def compile_func_params : List FunctionArg → Scopes →
    Except CompilerError (List Register) × Scopes
  | [], s => (.ok [], s)
  | a :: rest, s =>
    let step : Except CompilerError Register × Scopes :=
      match a with
      | .expr (.ident name) => s.add_decl name
      | .expr _ => (.error (.custom ("Only identifiers are accepted as function arguments")), s)
      | .pat (.identifier name) => s.add_decl name
      | .pat _ => (.error (.custom ("Only identifiers are accepted as function arguments")), s)
    match step with
    | (.error e, s') => (.error e, s')
    | (.ok r, s') =>
      match compile_func_params rest s' with
      | (.error e, s'') => (.error e, s'')
      | (.ok rs, s'') => (.ok (r :: rs), s'')

/-- The property-key reinterpretation of `compile_member_expr` (compiler.rs
lines 243-246): a property that is a bare identifier is read as a
string-literal key; any other property expression is used as is. -/
def member_prop_expr : Expr → Expr
  | .ident ident => .literal (.str ident)
  | property => property

/-- The fast-path scrutiny of `maybe_compile_expr` (compiler.rs lines 156-175):
a bare identifier bound in the current scope yields empty bytecode and its
existing register (discarding the caller's hint); everything else keeps the
caller's hint and no bytecode yet. -/
def fast_path (expr : Expr) (target_reg : Option Register) (c : BytecodeCompiler) :
    Option Bytecode × Option Register :=
  match expr with
  | .ident ident =>
    match c.scopes.get_var ident with
    | .ok var => (some Bytecode.new, some var.register)
    | .error _ => (none, target_reg)
  | _ => (none, target_reg)

/-- The target-resolution step of `maybe_compile_expr` (compiler.rs lines
177-180): keep the chosen register, or reserve a fresh one. -/
def resolve_target (target_reg : Option Register) (c : BytecodeCompiler) :
    Except CompilerError Register × BytecodeCompiler :=
  match target_reg with
  | some reg => (.ok reg, c)
  | none =>
    match c.scopes.reserve_register with
    | (.error e, s') => (.error e, { c with scopes := s' })
    | (.ok r, s') => (.ok r, { c with scopes := s' })

/-- The function-name binding step of `compile_func` (compiler.rs lines
296-298): a named function declaration binds its name in the enclosing scope
(the allocated register itself is discarded); an anonymous one binds nothing. -/
def bind_func_id (id : Option String) (s : Scopes) :
    Except CompilerError Unit × Scopes :=
  match id with
  | some ident =>
    match s.add_decl ident with
    | (.error e, s') => (.error e, s')
    | (.ok _, s') => (.ok (), s')
  | none => (.ok (), s)

mutual

/-- `BytecodeCompiler::compile_program_part` (compiler.rs lines 73-79). -/
def compile_program_part (p : ProgramPart) (c : BytecodeCompiler) :
    Except CompilerError Bytecode × BytecodeCompiler :=
  match p with
  | .dir => (.error (.unsupported ("Directives")), c)
  | .decl d => compile_decl d c
  | .stmt s => compile_stmt s c
  termination_by (sizeOf p, 0)

/-- The `iter().map(compile_program_part).collect::<Result<Bytecode>>()` loops
(compiler.rs lines 56-58, 118, 316): lower each part in order, concatenating
the resulting bytecode; the first error aborts. -/
def compile_parts (ps : List ProgramPart) (c : BytecodeCompiler) :
    Except CompilerError Bytecode × BytecodeCompiler :=
  match ps with
  | [] => (.ok Bytecode.new, c)
  | p :: rest =>
    match compile_program_part p c with
    | (.error e, c') => (.error e, c')
    | (.ok bc, c') =>
      match compile_parts rest c' with
      | (.error e, c'') => (.error e, c'')
      | (.ok bc', c'') => (.ok (Bytecode.combine bc bc'), c'')
  termination_by (sizeOf ps, 0)

/-- `BytecodeCompiler::compile_decl` (compiler.rs lines 81-89). -/
def compile_decl (d : Decl) (c : BytecodeCompiler) :
    Except CompilerError Bytecode × BytecodeCompiler :=
  match d with
  | .variable kind decls => compile_var_decl kind decls c
  | .function f => compile_func f c
  | .classDecl => (.error (.custom ("Class declarations are not supported")), c)
  | .importDecl => (.error (.custom ("Import declarations are not supported")), c)
  | .exportDecl => (.error (.custom ("Export declarations are not supported")), c)
  termination_by (sizeOf d, 0)

/-- `BytecodeCompiler::compile_var_decl` (compiler.rs lines 91-113): the
`decls.iter().map(..).collect()` fold; the let/const advisory diagnostics are
logging only and do not affect the result. -/
def compile_var_decl (kind : VariableKind) (decls : List VariableDecl)
    (c : BytecodeCompiler) : Except CompilerError Bytecode × BytecodeCompiler :=
  match decls with
  | [] => (.ok Bytecode.new, c)
  | d :: rest =>
    match compile_var_declarator d c with
    | (.error e, c') => (.error e, c')
    | (.ok bc, c') =>
      match compile_var_decl kind rest c' with
      | (.error e, c'') => (.error e, c'')
      | (.ok bc', c'') => (.ok (Bytecode.combine bc bc'), c'')
  termination_by (sizeOf decls, 0)

/-- The per-declarator closure body of `compile_var_decl` (compiler.rs lines
98-111): bind the identifier to a fresh register, then lower the initializer —
if any — directly into that register. -/
def compile_var_declarator (d : VariableDecl) (c : BytecodeCompiler) :
    Except CompilerError Bytecode × BytecodeCompiler :=
  match d with
  | .mk (Pat.identifier name) init =>
    match c.scopes.add_decl name with
    | (.error e, s') => (.error e, { c with scopes := s' })
    | (.ok reg, s') =>
      match init with
      | some expr => compile_expr expr reg { c with scopes := s' }
      | none => (.ok Bytecode.new, { c with scopes := s' })
  | .mk Pat.array _ => (.error (.custom ("Array Patterns are not supported")), c)
  | .mk Pat.object _ => (.error (.custom ("Object Patterns are not supported")), c)
  | .mk Pat.restElement _ => (.error (.custom ("Rest Elements are not supported")), c)
  | .mk Pat.assignmentPat _ => (.error (.custom ("Assignment Patterns are not supported")), c)
  termination_by (sizeOf d, 0)

/-- `BytecodeCompiler::compile_stmt` (compiler.rs lines 115-138). -/
def compile_stmt (s : Stmt) (c : BytecodeCompiler) :
    Except CompilerError Bytecode × BytecodeCompiler :=
  match s with
  | .expr e =>
    match c.scopes.get_throwaway_register with
    | .error er => (.error er, c)
    | .ok r => compile_expr e r c
  | .block body => compile_parts body c
  | .empty => (.ok Bytecode.new, c)
  | .debugger => (.error (.unsupported ("Debugger statments")), c)
  | .withStmt => (.error (.unsupported ("with statments")), c)
  | .returnStmt ret => compile_return_stmt ret c
  | .throwStmt => (.error (.unsupported ("throw statments")), c)
  | .tryStmt => (.error (.unsupported ("try statments")), c)
  | .forIn => (.error (.unsupported ("for-in statments")), c)
  | .forOf => (.error (.unsupported ("for-of statments")), c)
  | .varStmt decls => compile_var_decl VariableKind.Var decls c
  | .otherStmt => (.error (.unsupported ("Statement type")), c)
  termination_by (sizeOf s, 0)

/-- `BytecodeCompiler::compile_return_stmt` (compiler.rs lines 140-153). -/
def compile_return_stmt (ret : Option Expr) (c : BytecodeCompiler) :
    Except CompilerError Bytecode × BytecodeCompiler :=
  match ret with
  | some ret_expr =>
    match maybe_compile_expr ret_expr none c with
    | (.error e, c') => (.error e, c')
    | (.ok (bytecode, ret_reg), c') =>
      (.ok (Bytecode.add bytecode (Command.new .ReturnBytecodeFunc
        [Operand.RegistersArray [ret_reg]])), c')
  | none =>
    (.ok (Bytecode.add Bytecode.new (Command.new .ReturnBytecodeFunc
      [Operand.RegistersArray []])), c)
  termination_by (sizeOf ret, 0)

/-- `BytecodeCompiler::maybe_compile_expr` (compiler.rs lines 155-188): the
aliasing fast path.  A bare identifier bound in the current scope resolves to
its existing register with empty bytecode; otherwise the caller's target-hint
is used when present, a fresh register is reserved when not, and the expression
is fully lowered into that register. -/
def maybe_compile_expr (expr : Expr) (target_reg : Option Register)
    (c : BytecodeCompiler) :
    Except CompilerError (Bytecode × Register) × BytecodeCompiler :=
  match resolve_target (fast_path expr target_reg c).2 c with
  | (.error e, c') => (.error e, c')
  | (.ok target, c') =>
    match (fast_path expr target_reg c).1 with
    | some bc => (.ok (bc, target), c')
    | none =>
      match compile_expr expr target c' with
      | (.error e, c'') => (.error e, c'')
      | (.ok bc, c'') => (.ok (bc, target), c'')
  termination_by (sizeOf expr, 3)

/-- `BytecodeCompiler::compile_expr` (compiler.rs lines 190-219). -/
def compile_expr (expr : Expr) (target_reg : Register) (c : BytecodeCompiler) :
    Except CompilerError Bytecode × BytecodeCompiler :=
  match expr with
  | .arrowFunction => (.error (.unsupported ("Arrow functions")), c)
  | .arrowParamPlaceHolder => (.error (.unsupported ("Arrow parameter placeholder")), c)
  | .assignment operator left right =>
    compile_assignment_expr operator left right target_reg c
  | .awaitExpr => (.error (.unsupported ("await expressions")), c)
  | .classExpr => (.error (.unsupported ("class expressions")), c)
  | .call callee arguments => compile_call_expr callee arguments target_reg c
  | .functionExpr => (.error (.unsupported ("function expressions")), c)
  | .ident ident =>
    match c.scopes.get_var ident with
    | .error e => (.error e, c)
    | .ok var => (compile_operand_assignment target_reg (Operand.Register var.register), c)
  | .literal lit =>
    match Operand.from_literal lit with
    | .error e => (.error e, c)
    | .ok op => (compile_operand_assignment target_reg op, c)
  | .member object property => compile_member_expr object property target_reg c
  | .metaProperty => (.error (.unsupported ("meta properties")), c)
  | .spread => (.error (.unsupported ("spread expressions")), c)
  | .superExpr => (.error (.unsupported ("super expressions")), c)
  | .taggedTemplate => (.error (.unsupported ("tagged template expressions")), c)
  | .update operator isPre argument =>
    compile_update_expr operator isPre argument target_reg c
  | .unary operator isPre argument =>
    compile_unary_expr operator isPre argument target_reg c
  | .yieldExpr => (.error (.unsupported ("yield expressions")), c)
  | .otherExpr => (.error (.unsupported ("Expression type")), c)
  termination_by (sizeOf expr, 2)
  decreasing_by
    all_goals simp_wf
    all_goals try (exact Prod.Lex.right _ (by omega))
    all_goals apply Prod.Lex.left
    all_goals try omega
    all_goals
      (have hop : 0 < sizeOf operator := by cases operator <;> simp_arith
       omega)

/-- `BytecodeCompiler::compile_call_expr` (compiler.rs lines 221-239): the
callee is materialized with the call's target register as hint; the arguments
are materialized left to right with no hint. -/
def compile_call_expr (callee : Expr) (arguments : List Expr)
    (target_reg : Register) (c : BytecodeCompiler) :
    Except CompilerError Bytecode × BytecodeCompiler :=
  match maybe_compile_expr callee (some target_reg) c with
  | (.error e, c') => (.error e, c')
  | (.ok (callee_bc, callee_reg), c') =>
    match compile_call_args arguments c' with
    | (.error e, c'') => (.error e, c'')
    | (.ok (bytecode, arg_regs), c'') =>
      (.ok (Bytecode.add (Bytecode.combine bytecode callee_bc)
        (Command.new .CallFunc [Operand.Register target_reg,
          Operand.Register callee_reg, Operand.RegistersArray arg_regs])), c'')
  termination_by (1 + sizeOf callee + sizeOf arguments, 1)

/-- The argument loop of `compile_call_expr` (compiler.rs lines 224-229):
bytecodes concatenate in order, argument registers accumulate in order. -/
def compile_call_args (args : List Expr) (c : BytecodeCompiler) :
    Except CompilerError (Bytecode × List Register) × BytecodeCompiler :=
  match args with
  | [] => (.ok (Bytecode.new, []), c)
  | a :: rest =>
    match maybe_compile_expr a none c with
    | (.error e, c') => (.error e, c')
    | (.ok (arg_bc, arg_reg), c') =>
      match compile_call_args rest c' with
      | (.error e, c'') => (.error e, c'')
      | (.ok (bc, regs), c'') =>
        (.ok (Bytecode.combine arg_bc bc, arg_reg :: regs), c'')
  termination_by (sizeOf args, 1)

/-- `BytecodeCompiler::compile_member_expr` (compiler.rs lines 241-253): an
identifier property is reinterpreted as a string-literal key. -/
def compile_member_expr (object property : Expr) (target_reg : Register)
    (c : BytecodeCompiler) : Except CompilerError Bytecode × BytecodeCompiler :=
  match maybe_compile_expr object none c with
  | (.error e, c') => (.error e, c')
  | (.ok (obj_bc, obj_reg), c') =>
    match maybe_compile_expr (member_prop_expr property) none c' with
    | (.error e, c'') => (.error e, c'')
    | (.ok (prop_bc, prop_reg), c'') =>
      (.ok (Bytecode.add (Bytecode.combine obj_bc prop_bc)
        (Command.new .PropAccess [Operand.Register target_reg,
          Operand.Register obj_reg, Operand.Register prop_reg])), c'')
  termination_by (1 + sizeOf object + sizeOf property, 1)
  decreasing_by
    all_goals simp_wf
    all_goals try (exact Prod.Lex.right _ (by omega))
    all_goals apply Prod.Lex.left
    all_goals try omega
    all_goals
      (have hob : 0 < sizeOf object := by cases object <;> simp_arith
       cases property <;> simp_arith [member_prop_expr] <;> omega)

/-- `BytecodeCompiler::compile_assignment_expr` (compiler.rs lines 255-271):
the caller's target register is ignored (`_target_reg`); `=` lowers the right
side directly into the left register, compound operators combine in place. -/
def compile_assignment_expr (operator : AssignmentOperator)
    (left : AssignmentLeft) (right : Expr) (_target_reg : Register)
    (c : BytecodeCompiler) : Except CompilerError Bytecode × BytecodeCompiler :=
  match left with
  | .pat _ => (.error (.unsupported ("Patterns in assignments")), c)
  | .expr lexpr =>
    match maybe_compile_expr lexpr none c with
    | (.error e, c') => (.error e, c')
    | (.ok (left_bc, left_reg), c') =>
      match operator with
      | .Equal =>
        match compile_expr right left_reg c' with
        | (.error e, c'') => (.error e, c'')
        | (.ok right_bc, c'') => (.ok (Bytecode.combine left_bc right_bc), c'')
      | _ =>
        match maybe_compile_expr right none c' with
        | (.error e, c'') => (.error e, c'')
        | (.ok (right_bc, right_reg), c'') =>
          (.ok (Bytecode.add (Bytecode.combine left_bc right_bc)
            (c''.isa.assignment_op operator left_reg right_reg)), c'')
  termination_by (1 + sizeOf left + sizeOf right, 1)

/-- `BytecodeCompiler::compile_update_expr` (compiler.rs lines 273-280): prefix
only; the caller's target register is ignored (`_target_reg`). -/
def compile_update_expr (operator : UpdateOperator) (isPre : Bool)
    (argument : Expr) (_target_reg : Register) (c : BytecodeCompiler) :
    Except CompilerError Bytecode × BytecodeCompiler :=
  if isPre then
    match maybe_compile_expr argument none c with
    | (.error e, c') => (.error e, c')
    | (.ok (arg_bc, arg_reg), c') =>
      (.ok (Bytecode.add arg_bc (c'.isa.update_op operator arg_reg)), c')
  else
    (.error (.unsupported ("suffix update expressions")), c)
  termination_by (1 + sizeOf argument, 1)

/-- `BytecodeCompiler::compile_unary_expr` (compiler.rs lines 282-289): prefix
only; the selector's error (void / unsupported operator) propagates. -/
def compile_unary_expr (operator : UnaryOperator) (isPre : Bool)
    (argument : Expr) (target_reg : Register) (c : BytecodeCompiler) :
    Except CompilerError Bytecode × BytecodeCompiler :=
  if isPre then
    match maybe_compile_expr argument none c with
    | (.error e, c') => (.error e, c')
    | (.ok (arg_bc, arg_reg), c') =>
      match c'.isa.unary_op operator target_reg arg_reg with
      | .error e => (.error e, c')
      | .ok cmd => (.ok (Bytecode.add arg_bc cmd), c')
  else
    (.error (.unsupported ("suffix unary expressions")), c)
  termination_by (1 + sizeOf argument, 1)

/-- `BytecodeCompiler::compile_func` (compiler.rs lines 291-332): bind the
function's name in the enclosing scope, enter a new scope, bind the parameters,
lower the body, leave the scope, append an implicit return when the body does
not already end in one, store the result in the function side table, and lower
the declaration site to empty bytecode. -/
def compile_func (f : Function) (c : BytecodeCompiler) :
    Except CompilerError Bytecode × BytecodeCompiler :=
  match f with
  | .mk id params body generator is_async =>
    if generator || is_async then
      (.error (.unsupported ("generator and async functions")), c)
    else
      match bind_func_id id c.scopes with
      | (.error e, s₁) => (.error e, { c with scopes := s₁ })
      | (.ok _, s₁) =>
        match s₁.enter_new_scope with
        | (.error e, s₂) => (.error e, { c with scopes := s₂ })
        | (.ok _, s₂) =>
          match compile_func_params params s₂ with
          | (.error e, s₃) => (.error e, { c with scopes := s₃ })
          | (.ok arg_regs, s₃) =>
            match compile_parts body { c with scopes := s₃ } with
            | (.error e, c₄) => (.error e, c₄)
            | (.ok func_bc, c₄) =>
              match c₄.scopes.leave_current_scope with
              | (.error e, s₅) => (.error e, { c₄ with scopes := s₅ })
              | (.ok _, s₅) =>
                let func_bc' :=
                  if Bytecode.last_op_is_return func_bc then func_bc
                  else Bytecode.add func_bc
                    (Command.new .ReturnBytecodeFunc [Operand.RegistersArray []])
                (.ok Bytecode.new,
                  { c₄ with
                      scopes := s₅,
                      functions := c₄.functions ++
                        [⟨func_bc', arg_regs, some (.mk id params body generator is_async)⟩] })
  termination_by (sizeOf f, 0)
end

/-- `BytecodeCompiler::compile` (compiler.rs lines 47-71), after the external
parse: modules are rejected; a script's parts are lowered in order; if any
function bodies were collected, an Exit command and the function bodies (in
declaration order) are appended. -/
def compile (p : Program) (c : BytecodeCompiler) :
    Except CompilerError Bytecode × BytecodeCompiler :=
  match p with
  | .moduleProgram => (.error (.unsupported ("ES6 modules")), c)
  | .script parts =>
    match compile_parts parts c with
    | (.error e, c') => (.error e, c')
    | (.ok bytecode, c') =>
      let functions_bytecode : Bytecode :=
        (c'.functions.map (fun f => f.bytecode)).flatten
      if functions_bytecode.isEmpty then (.ok bytecode, c')
      else (.ok (Bytecode.combine
        (Bytecode.add bytecode (Command.new .Exit [])) functions_bytecode), c')

/-- How expression lowering may change the compiler state: the scope frames,
the collected functions and the selector are untouched, and the free queue only
loses registers from its front (what remains is a suffix of what was there). -/
def exprStep (c c' : BytecodeCompiler) : Prop :=
  c'.scopes.scopes = c.scopes.scopes ∧
  c'.scopes.unused_register <:+ c.scopes.unused_register ∧
  c'.functions = c.functions ∧
  c'.isa = c.isa

/-- Every collected function body is non-empty bytecode (compile_func always
ends a body with a return when it does not already end in one). -/
def funcsNonEmpty (c : BytecodeCompiler) : Prop :=
  ∀ f ∈ c.functions, f.bytecode ≠ []

/-- The destination register of a command under the ISA's operand convention
(the first operand names the written register, when it is a register). -/
def Command.dest : Command → Option Register
  | ⟨_, .Register rd :: _⟩ => some rd
  | _ => none

/-- The fully evaluated fresh compiler state: one empty frame, free queue
0..=251 (registers 252-254 are held by the constant cache), no functions, and
the constant cache regs `[254, 253, 252]` = (0, 1, undefined). -/
def newLit : BytecodeCompiler :=
  ⟨⟨[⟨[], []⟩], rangeFrom 0 252⟩, [], ⟨⟨[254, 253, 252]⟩⟩⟩

/-- The parsed AST of `var x = 1; x++; return x;`. -/
def c6prog : Program :=
  .script [
    .decl (.variable .Var [.mk (Pat.identifier ("x")) (some (.literal (.shortNum 1)))]),
    .stmt (.expr (.update .Increment true (.ident ("x")))),
    .stmt (.returnStmt (some (.ident ("x"))))]

/-- A fresh compiler in which `x` has just been declared (register 0). -/
def c10ctx : BytecodeCompiler :=
  { BytecodeCompiler.new with scopes := (BytecodeCompiler.new.scopes.add_decl ("x")).2 }

/-- The parsed AST of `var x = 1; var a = ++x;`. -/
def c10prog : Program :=
  .script [
    .stmt (.varStmt [.mk (Pat.identifier ("x")) (some (.literal (.shortNum 1)))]),
    .stmt (.varStmt [.mk (Pat.identifier ("a"))
      (some (.update .Increment true (.ident ("x"))))])]

/-- The initializer expression `x = 1` (an assignment used as initializer). -/
def c10expr : Expr :=
  .assignment .Equal (.expr (.ident ("x"))) (.literal (.shortNum 1))

/-- A top-level program consisting of one empty function declaration. -/
def c4parts : List ProgramPart :=
  [.decl (.function (.mk (some ("f")) [] [] false false))]

/-- The declarator list of `var a = 1, b = nope;` where `nope` is undeclared. -/
def c7decls : List VariableDecl :=
  [.mk (Pat.identifier ("a")) (some (.literal (.shortNum 1))),
   .mk (Pat.identifier ("b")) (some (.ident ("nope")))]

/-  ---------------------------------------------------------------------------
    Theorems.  Helper lemmas first, then one theorem per claim (with its
    witness or counterexample as required).
    ------------------------------------------------------------------------- -/

set_option maxRecDepth 8000 in
theorem new_eval : BytecodeCompiler.new = newLit := by rfl

theorem exprStep_refl (c : BytecodeCompiler) : exprStep c c :=
  ⟨rfl, List.suffix_refl _, rfl, rfl⟩

theorem exprStep_trans {a b c : BytecodeCompiler} (h1 : exprStep a b)
    (h2 : exprStep b c) : exprStep a c :=
  ⟨h2.1.trans h1.1, h2.2.1.trans h1.2.1, h2.2.2.1.trans h1.2.2.1,
   h2.2.2.2.trans h1.2.2.2⟩

theorem reserve_state (s : Scopes) :
    (s.reserve_register).2.scopes = s.scopes ∧
    (s.reserve_register).2.unused_register <:+ s.unused_register := by
  cases hun : s.unused_register with
  | nil => simp [Scopes.reserve_register, Scopes.get_unused_register, hun]
  | cons r rest =>
    refine ⟨?_, ?_⟩ <;>
      simp [Scopes.reserve_register, Scopes.get_unused_register, hun]

theorem resolve_target_step (t : Option Register) (c : BytecodeCompiler) :
    exprStep c (resolve_target t c).2 := by
  cases t with
  | some reg => exact exprStep_refl c
  | none =>
    have hs := reserve_state c.scopes
    simp only [resolve_target]
    cases hr : c.scopes.reserve_register with
    | mk res s' =>
      rw [hr] at hs
      cases res <;> exact ⟨hs.1, hs.2, rfl, rfl⟩

mutual

theorem maybe_compile_expr_step (expr : Expr) (t : Option Register)
    (c : BytecodeCompiler) : exprStep c (maybe_compile_expr expr t c).2 := by
  rw [maybe_compile_expr.eq_def]
  split
  · rename_i e c' heq
    have h := resolve_target_step (fast_path expr t c).2 c
    rw [heq] at h
    exact h
  · rename_i target c' heq
    have h1 := resolve_target_step (fast_path expr t c).2 c
    rw [heq] at h1
    split
    · exact h1
    · split
      · rename_i e c'' heq2
        have h2 := compile_expr_step expr target c'
        rw [heq2] at h2
        exact exprStep_trans h1 h2
      · rename_i bc c'' heq2
        have h2 := compile_expr_step expr target c'
        rw [heq2] at h2
        exact exprStep_trans h1 h2
  termination_by (sizeOf expr, 3)

theorem compile_expr_step (expr : Expr) (target_reg : Register)
    (c : BytecodeCompiler) : exprStep c (compile_expr expr target_reg c).2 := by
  cases expr <;> rw [compile_expr]
  case assignment operator left right =>
    exact compile_assignment_expr_step operator left right target_reg c
  case call callee arguments =>
    exact compile_call_expr_step callee arguments target_reg c
  case member object property =>
    exact compile_member_expr_step object property target_reg c
  case update operator isPre argument =>
    exact compile_update_expr_step operator isPre argument target_reg c
  case unary operator isPre argument =>
    exact compile_unary_expr_step operator isPre argument target_reg c
  all_goals first
    | exact exprStep_refl _
    | (split <;> exact exprStep_refl _)
  termination_by (sizeOf expr, 2)
  decreasing_by
    all_goals simp_wf
    all_goals try (exact Prod.Lex.right _ (by omega))
    all_goals apply Prod.Lex.left
    all_goals try omega
    all_goals
      (have hop : 0 < sizeOf operator := by cases operator <;> simp_arith
       omega)

theorem compile_call_expr_step (callee : Expr) (arguments : List Expr)
    (target_reg : Register) (c : BytecodeCompiler) :
    exprStep c (compile_call_expr callee arguments target_reg c).2 := by
  rw [compile_call_expr.eq_def]
  split
  · rename_i e c' heq
    have h := maybe_compile_expr_step callee (some target_reg) c
    rw [heq] at h
    exact h
  · rename_i callee_bc callee_reg c' heq
    have h1 := maybe_compile_expr_step callee (some target_reg) c
    rw [heq] at h1
    split
    · rename_i e c'' heq2
      have h2 := compile_call_args_step arguments c'
      rw [heq2] at h2
      exact exprStep_trans h1 h2
    · rename_i bc regs c'' heq2
      have h2 := compile_call_args_step arguments c'
      rw [heq2] at h2
      exact exprStep_trans h1 h2
  termination_by (1 + sizeOf callee + sizeOf arguments, 1)

theorem compile_call_args_step (args : List Expr) (c : BytecodeCompiler) :
    exprStep c (compile_call_args args c).2 := by
  rw [compile_call_args.eq_def]
  split
  · exact exprStep_refl _
  · rename_i a rest
    split
    · rename_i e c' heq
      have h := maybe_compile_expr_step a none c
      rw [heq] at h
      exact h
    · rename_i arg_bc arg_reg c' heq
      have h1 := maybe_compile_expr_step a none c
      rw [heq] at h1
      split
      · rename_i e c'' heq2
        have h2 := compile_call_args_step rest c'
        rw [heq2] at h2
        exact exprStep_trans h1 h2
      · rename_i bc regs c'' heq2
        have h2 := compile_call_args_step rest c'
        rw [heq2] at h2
        exact exprStep_trans h1 h2
  termination_by (sizeOf args, 1)

theorem compile_member_expr_step (object property : Expr)
    (target_reg : Register) (c : BytecodeCompiler) :
    exprStep c (compile_member_expr object property target_reg c).2 := by
  rw [compile_member_expr.eq_def]
  split
  · rename_i e c' heq
    have h := maybe_compile_expr_step object none c
    rw [heq] at h
    exact h
  · rename_i obj_bc obj_reg c' heq
    have h1 := maybe_compile_expr_step object none c
    rw [heq] at h1
    split <;>
      (rename_i heq2
       have h2 := maybe_compile_expr_step (member_prop_expr property) none c'
       rw [heq2] at h2
       exact exprStep_trans h1 h2)
  termination_by (1 + sizeOf object + sizeOf property, 1)
  decreasing_by
    all_goals simp_wf
    all_goals try (exact Prod.Lex.right _ (by omega))
    all_goals apply Prod.Lex.left
    all_goals try omega
    all_goals
      (have hob : 0 < sizeOf object := by cases object <;> simp_arith
       cases property <;> simp_arith [member_prop_expr] <;> omega)

theorem compile_assignment_expr_step (operator : AssignmentOperator)
    (left : AssignmentLeft) (right : Expr) (target_reg : Register)
    (c : BytecodeCompiler) :
    exprStep c (compile_assignment_expr operator left right target_reg c).2 := by
  rw [compile_assignment_expr.eq_def]
  split
  · exact exprStep_refl _
  · rename_i lexpr
    split
    · rename_i e c' heq
      have h := maybe_compile_expr_step lexpr none c
      rw [heq] at h
      exact h
    · rename_i left_bc left_reg c' heq
      have h1 := maybe_compile_expr_step lexpr none c
      rw [heq] at h1
      split
      · split
        · rename_i e c'' heq2
          have h2 := compile_expr_step right left_reg c'
          rw [heq2] at h2
          exact exprStep_trans h1 h2
        · rename_i right_bc c'' heq2
          have h2 := compile_expr_step right left_reg c'
          rw [heq2] at h2
          exact exprStep_trans h1 h2
      · split
        · rename_i e c'' heq2
          have h2 := maybe_compile_expr_step right none c'
          rw [heq2] at h2
          exact exprStep_trans h1 h2
        · rename_i right_bc right_reg c'' heq2
          have h2 := maybe_compile_expr_step right none c'
          rw [heq2] at h2
          exact exprStep_trans h1 h2
  termination_by (1 + sizeOf left + sizeOf right, 1)

theorem compile_update_expr_step (operator : UpdateOperator) (isPre : Bool)
    (argument : Expr) (target_reg : Register) (c : BytecodeCompiler) :
    exprStep c (compile_update_expr operator isPre argument target_reg c).2 := by
  rw [compile_update_expr.eq_def]
  split
  · split
    · rename_i e c' heq
      have h := maybe_compile_expr_step argument none c
      rw [heq] at h
      exact h
    · rename_i arg_bc arg_reg c' heq
      have h := maybe_compile_expr_step argument none c
      rw [heq] at h
      exact h
  · exact exprStep_refl _
  termination_by (1 + sizeOf argument, 1)

theorem compile_unary_expr_step (operator : UnaryOperator) (isPre : Bool)
    (argument : Expr) (target_reg : Register) (c : BytecodeCompiler) :
    exprStep c (compile_unary_expr operator isPre argument target_reg c).2 := by
  rw [compile_unary_expr.eq_def]
  split
  · split
    · rename_i e c' heq
      have h := maybe_compile_expr_step argument none c
      rw [heq] at h
      exact h
    · rename_i arg_bc arg_reg c' heq
      have h := maybe_compile_expr_step argument none c
      rw [heq] at h
      split <;> exact h
  · exact exprStep_refl _
  termination_by (1 + sizeOf argument, 1)

end

theorem funcs_eq {c c' : BytecodeCompiler} (h : c'.functions = c.functions) :
    funcsNonEmpty c → funcsNonEmpty c' :=
  fun hf f hm => hf f (h ▸ hm)

theorem last_op_nonempty {bc : Bytecode}
    (h : Bytecode.last_op_is_return bc = true) : bc ≠ [] := by
  intro hnil
  subst hnil
  simp [Bytecode.last_op_is_return, List.getLast?] at h

mutual

theorem compile_program_part_funcs (p : ProgramPart) (c : BytecodeCompiler)
    (h : funcsNonEmpty c) : funcsNonEmpty (compile_program_part p c).2 := by
  cases p with
  | dir => simp only [compile_program_part]; exact h
  | decl d => simp only [compile_program_part]; exact compile_decl_funcs d c h
  | stmt st => simp only [compile_program_part]; exact compile_stmt_funcs st c h
  termination_by (sizeOf p, 0)

theorem compile_parts_funcs (ps : List ProgramPart) (c : BytecodeCompiler)
    (h : funcsNonEmpty c) : funcsNonEmpty (compile_parts ps c).2 := by
  cases ps with
  | nil => simp only [compile_parts]; exact h
  | cons p rest =>
    simp only [compile_parts]
    split
    · rename_i e c' heq
      have h1 := compile_program_part_funcs p c h
      rw [heq] at h1
      exact h1
    · rename_i bc c' heq
      have h1 := compile_program_part_funcs p c h
      rw [heq] at h1
      split
      · rename_i e c'' heq2
        have h2 := compile_parts_funcs rest c' h1
        rw [heq2] at h2
        exact h2
      · rename_i bc' c'' heq2
        have h2 := compile_parts_funcs rest c' h1
        rw [heq2] at h2
        exact h2
  termination_by (sizeOf ps, 0)

theorem compile_decl_funcs (d : Decl) (c : BytecodeCompiler)
    (h : funcsNonEmpty c) : funcsNonEmpty (compile_decl d c).2 := by
  cases d
  next kind decls =>
    simp only [compile_decl]
    exact compile_var_decl_funcs kind decls c h
  next f => simp only [compile_decl]; exact compile_func_funcs f c h
  next => simp only [compile_decl]; exact h
  next => simp only [compile_decl]; exact h
  next => simp only [compile_decl]; exact h
  termination_by (sizeOf d, 0)

theorem compile_var_decl_funcs (kind : VariableKind) (decls : List VariableDecl)
    (c : BytecodeCompiler) (h : funcsNonEmpty c) :
    funcsNonEmpty (compile_var_decl kind decls c).2 := by
  cases decls with
  | nil => simp only [compile_var_decl]; exact h
  | cons d rest =>
    simp only [compile_var_decl]
    split
    · rename_i e c' heq
      have h1 := compile_var_declarator_funcs d c h
      rw [heq] at h1
      exact h1
    · rename_i bc c' heq
      have h1 := compile_var_declarator_funcs d c h
      rw [heq] at h1
      split
      · rename_i e c'' heq2
        have h2 := compile_var_decl_funcs kind rest c' h1
        rw [heq2] at h2
        exact h2
      · rename_i bc' c'' heq2
        have h2 := compile_var_decl_funcs kind rest c' h1
        rw [heq2] at h2
        exact h2
  termination_by (sizeOf decls, 0)

theorem compile_var_declarator_funcs (d : VariableDecl) (c : BytecodeCompiler)
    (h : funcsNonEmpty c) : funcsNonEmpty (compile_var_declarator d c).2 := by
  cases d with
  | mk pat init =>
    cases pat with
    | identifier name =>
      simp only [compile_var_declarator]
      split
      · exact h
      · rename_i reg s' heq
        cases init with
        | some expr =>
          exact funcs_eq
            (compile_expr_step expr reg { c with scopes := s' }).2.2.1 h
        | none => exact h
    | array => simp only [compile_var_declarator]; exact h
    | object => simp only [compile_var_declarator]; exact h
    | restElement => simp only [compile_var_declarator]; exact h
    | assignmentPat => simp only [compile_var_declarator]; exact h
  termination_by (sizeOf d, 0)

theorem compile_stmt_funcs (st : Stmt) (c : BytecodeCompiler)
    (h : funcsNonEmpty c) : funcsNonEmpty (compile_stmt st c).2 := by
  cases st with
  | expr e =>
    simp only [compile_stmt]
    split
    · exact h
    · rename_i r heq
      exact funcs_eq (compile_expr_step e r c).2.2.1 h
  | block body => simp only [compile_stmt]; exact compile_parts_funcs body c h
  | empty => simp only [compile_stmt]; exact h
  | debugger => simp only [compile_stmt]; exact h
  | withStmt => simp only [compile_stmt]; exact h
  | returnStmt ret =>
    simp only [compile_stmt]
    exact compile_return_stmt_funcs ret c h
  | throwStmt => simp only [compile_stmt]; exact h
  | tryStmt => simp only [compile_stmt]; exact h
  | forIn => simp only [compile_stmt]; exact h
  | forOf => simp only [compile_stmt]; exact h
  | varStmt decls =>
    simp only [compile_stmt]
    exact compile_var_decl_funcs VariableKind.Var decls c h
  | otherStmt => simp only [compile_stmt]; exact h
  termination_by (sizeOf st, 0)

theorem compile_return_stmt_funcs (ret : Option Expr) (c : BytecodeCompiler)
    (h : funcsNonEmpty c) : funcsNonEmpty (compile_return_stmt ret c).2 := by
  cases ret with
  | none => simp only [compile_return_stmt]; exact h
  | some e =>
    simp only [compile_return_stmt]
    split
    · rename_i er c' heq
      have h1 := maybe_compile_expr_step e none c
      rw [heq] at h1
      exact funcs_eq h1.2.2.1 h
    · rename_i bc r c' heq
      have h1 := maybe_compile_expr_step e none c
      rw [heq] at h1
      exact funcs_eq h1.2.2.1 h
  termination_by (sizeOf ret, 0)

theorem compile_func_funcs (f : Function) (c : BytecodeCompiler)
    (h : funcsNonEmpty c) : funcsNonEmpty (compile_func f c).2 := by
  cases f with
  | mk id params body generator is_async =>
    rw [compile_func.eq_def]
    dsimp only
    split
    · exact h
    · split
      · exact h
      · rename_i r s₁ heq1
        split
        · exact h
        · rename_i u s₂ heq2
          split
          · exact h
          · rename_i arg_regs s₃ heq3
            split
            · rename_i e c₄ heq4
              have h4 := compile_parts_funcs body { c with scopes := s₃ } h
              rw [heq4] at h4
              exact h4
            · rename_i func_bc c₄ heq4
              have h4 := compile_parts_funcs body { c with scopes := s₃ } h
              rw [heq4] at h4
              split
              · exact h4
              · rename_i u2 s₅ heq5
                intro fb hm
                rcases List.mem_append.1 hm with hm | hm
                · exact h4 fb hm
                · simp only [List.mem_singleton] at hm
                  subst hm
                  by_cases hr : Bytecode.last_op_is_return func_bc = true
                  · simp only [hr, if_true]
                    exact last_op_nonempty hr
                  · simp only [hr, if_false]
                    simp [Bytecode.add]
  termination_by (sizeOf f, 0)

end

theorem find_eraseP_ne (m : List (String × Declaration)) (k k' : String)
    (h : k' ≠ k) :
    (m.eraseP (fun p => p.1 == k)).find? (fun p => p.1 == k') =
      m.find? (fun p => p.1 == k') := by
  induction m with
  | nil => rfl
  | cons a m' ih =>
    by_cases ha : a.1 = k
    · have hbeq : (a.1 == k) = true := by simp [ha]
      have hbne : (a.1 == k') = false := by simp [ha]; exact fun hc => h hc.symm
      simp [List.eraseP_cons, List.find?_cons, hbeq, hbne]
    · have hbeq : (a.1 == k) = false := by simp [ha]
      simp only [List.eraseP_cons, hbeq, Bool.false_eq_true, if_false,
        List.find?_cons]
      cases hk' : (a.1 == k') <;> simp [hk', ih]

theorem lookupDecl_insert (m : List (String × Declaration)) (k k' : String)
    (v : Declaration) :
    lookupDecl (insertDecl m k v) k' =
      if k' = k then some v else lookupDecl m k' := by
  by_cases hk : k' = k
  · simp [lookupDecl, insertDecl, List.find?_cons, hk]
  · have hbne : (k == k') = false := by simp; exact fun hc => hk hc.symm
    simp only [lookupDecl, insertDecl, List.find?_cons, hbne, hk, if_false]
    rw [find_eraseP_ne m k k' hk]

theorem add_decl_state (s : Scopes) (nm : String) :
    (s.add_decl nm).2.unused_register <:+ s.unused_register ∧
    (∀ n, exOk (s.get_var n) = true → exOk ((s.add_decl nm).2.get_var n) = true) ∧
    (exOk ((s.add_decl nm).1) = true → exOk ((s.add_decl nm).2.get_var nm) = true) := by
  cases hun : s.unused_register with
  | nil =>
    simp only [Scopes.add_decl, Scopes.get_unused_register, hun]
    exact ⟨List.suffix_refl _, fun n hn => hn, by simp [exOk]⟩
  | cons r rest =>
    cases hsc : s.scopes with
    | nil =>
      simp only [Scopes.add_decl, Scopes.get_unused_register, hun, hsc]
      refine ⟨⟨[r], rfl⟩, ?_, ?_⟩
      · intro n hn
        simp [Scopes.get_var, Scopes.current_scope, hsc, exOk] at hn
      · simp [exOk]
    | cons f fr =>
      simp only [Scopes.add_decl, Scopes.get_unused_register, hun, hsc]
      refine ⟨⟨[r], rfl⟩, ?_, ?_⟩
      · intro n hn
        simp only [Scopes.get_var, Scopes.current_scope, hsc] at hn ⊢
        simp only [lookupDecl_insert]
        by_cases hnk : n = nm
        · simp [hnk, exOk]
        · simp only [hnk, if_false]
          exact hn
      · intro _
        simp only [Scopes.get_var, Scopes.current_scope]
        simp [lookupDecl_insert, exOk]

theorem exprStep_get_var {c c' : BytecodeCompiler} (h : exprStep c c')
    (n : String) : c'.scopes.get_var n = c.scopes.get_var n := by
  simp only [Scopes.get_var, Scopes.current_scope, h.1]

theorem compile_var_declarator_state (d : VariableDecl) (c : BytecodeCompiler) :
    (compile_var_declarator d c).2.scopes.unused_register <:+
      c.scopes.unused_register ∧
    (∀ n, exOk (c.scopes.get_var n) = true →
      exOk ((compile_var_declarator d c).2.scopes.get_var n) = true) ∧
    (∀ nm init, d = .mk (Pat.identifier nm) (some init) →
      exOk ((c.scopes.add_decl nm).1) = true →
      exOk ((compile_var_declarator d c).2.scopes.get_var nm) = true) := by
  cases d with
  | mk pat init =>
    cases pat with
    | identifier name =>
      have ha := add_decl_state c.scopes name
      simp only [compile_var_declarator]
      split
      · rename_i e s' heq
        rw [heq] at ha
        refine ⟨ha.1, ha.2.1, ?_⟩
        intro nm init' hd hok
        have hnm : name = nm := by
          injection hd with h1 h2
          injection h1
        rw [← hnm] at hok
        rw [heq] at hok
        simp [exOk] at hok
      · rename_i reg s' heq
        rw [heq] at ha
        cases init with
        | none =>
          refine ⟨ha.1, ha.2.1, ?_⟩
          intro nm init' hd
          injection hd with h1 h2
          exact absurd h2 (by simp)
        | some expr =>
          have hstep := compile_expr_step expr reg { c with scopes := s' }
          refine ⟨hstep.2.1.trans ha.1, ?_, ?_⟩
          · intro n hn
            rw [exprStep_get_var hstep n]
            exact ha.2.1 n hn
          · intro nm init' hd hok
            have hnm : name = nm := by
              injection hd with h1 h2
              injection h1
            subst hnm
            rw [exprStep_get_var hstep name]
            rw [heq] at hok
            exact ha.2.2 hok
    | array =>
      exact ⟨List.suffix_refl _, fun n hn => hn, fun nm init' hd => by
        exact absurd hd (by simp [compile_var_declarator])⟩
    | object =>
      exact ⟨List.suffix_refl _, fun n hn => hn, fun nm init' hd => by
        exact absurd hd (by simp [compile_var_declarator])⟩
    | restElement =>
      exact ⟨List.suffix_refl _, fun n hn => hn, fun nm init' hd => by
        exact absurd hd (by simp [compile_var_declarator])⟩
    | assignmentPat =>
      exact ⟨List.suffix_refl _, fun n hn => hn, fun nm init' hd => by
        exact absurd hd (by simp [compile_var_declarator])⟩

theorem rangeFrom_mem {n start r : Nat} (h : r ∈ rangeFrom start n) : r < start + n := by
  induction n generalizing start with
  | zero => simp [rangeFrom] at h
  | succ m ih =>
    simp only [rangeFrom, List.mem_cons] at h
    rcases h with h | h
    · omega
    · have := ih h
      omega

theorem reach_inv {s : Scopes} (h : Reach s) : ScopesInv s := by
  induction h with
  | new =>
    constructor
    · intro r hr
      have := rangeFrom_mem hr
      simpa using this
    · intro f hf
      simp only [Scopes.new, List.mem_singleton] at hf
      subst hf
      simp [Scope.new]
  | add_decl n _ ih =>
    rename_i s _
    obtain ⟨hu, hf⟩ := ih
    cases hun : s.unused_register with
    | nil =>
      simpa [Scopes.add_decl, Scopes.get_unused_register, hun] using ⟨hu, hf⟩
    | cons r rest =>
      have hr : r < 255 := hu r (by simp [hun])
      have hrest : ∀ x ∈ rest, x < 255 := fun x hx => hu x (by simp [hun, hx])
      cases hsc : s.scopes with
      | nil =>
        refine ⟨?_, ?_⟩ <;>
          simp_all [Scopes.add_decl, Scopes.get_unused_register, hun, hsc]
      | cons f fr =>
        have hftop := hf f (by simp [hsc])
        have hfr : ∀ g ∈ fr, (∀ x ∈ g.unnamed_reserved_registers, x < 255) ∧
            (∀ p ∈ g.decls, p.2.register < 255) :=
          fun g hg => hf g (by simp [hsc, hg])
        constructor
        · intro x hx
          simp only [Scopes.add_decl, Scopes.get_unused_register, hun, hsc] at hx
          exact hrest x hx
        · intro g hg
          simp only [Scopes.add_decl, Scopes.get_unused_register, hun, hsc,
            List.mem_cons] at hg
          rcases hg with hg | hg
          · subst hg
            refine ⟨hftop.1, ?_⟩
            intro p hp
            simp only [insertDecl, List.mem_cons] at hp
            rcases hp with hp | hp
            · subst hp; exact hr
            · exact hftop.2 p ((List.eraseP_sublist _).subset hp)
          · exact hfr g hg
  | reserve _ ih =>
    rename_i s _
    obtain ⟨hu, hf⟩ := ih
    cases hun : s.unused_register with
    | nil =>
      simpa [Scopes.reserve_register, Scopes.get_unused_register, hun] using ⟨hu, hf⟩
    | cons r rest =>
      constructor
      · intro x hx
        simp only [Scopes.reserve_register, Scopes.get_unused_register, hun] at hx
        exact hu x (by simp [hun, hx])
      · intro g hg
        simp only [Scopes.reserve_register, Scopes.get_unused_register, hun] at hg
        exact hf g hg
  | enter _ ih =>
    rename_i s _
    obtain ⟨hu, hf⟩ := ih
    cases hsc : s.scopes with
    | nil =>
      simpa [Scopes.enter_new_scope, Scopes.current_scope, hsc] using ⟨hu, hf⟩
    | cons f fr =>
      have hftop := hf f (by simp [hsc])
      constructor
      · intro x hx
        simp only [Scopes.enter_new_scope, Scopes.current_scope, hsc] at hx
        exact hu x hx
      · intro g hg
        simp only [Scopes.enter_new_scope, Scopes.current_scope, hsc,
          List.mem_cons] at hg
        rcases hg with hg | hg
        · subst hg
          exact ⟨by simp, hftop.2⟩
        · exact hf g (by simp [hsc, hg])
  | leave _ ih =>
    rename_i s _
    obtain ⟨hu, hf⟩ := ih
    cases hsc : s.scopes with
    | nil =>
      simpa [Scopes.leave_current_scope, hsc] using ⟨hu, hf⟩
    | cons f fr =>
      have hftop := hf f (by simp [hsc])
      constructor
      · intro x hx
        simp only [Scopes.leave_current_scope, hsc, Scope.used_registers,
          List.mem_append, List.mem_map] at hx
        rcases hx with hx | hx | hx
        · exact hu x hx
        · exact hftop.1 x hx
        · obtain ⟨p, hp, hpx⟩ := hx
          have h2 := hftop.2 p hp
          exact hpx ▸ h2
      · intro g hg
        simp only [Scopes.leave_current_scope, hsc] at hg
        exact hf g (by simp [hsc, hg])

theorem applyScopeOp_tail (op : ScopeOp) (s : Scopes) (g : Scope) (r : List Scope)
    (h : s.scopes = g :: r) : ∃ g', (applyScopeOp op s).scopes = g' :: r := by
  cases op with
  | add n =>
    cases hun : s.unused_register with
    | nil =>
      exact ⟨g, by simp [applyScopeOp, Scopes.add_decl, Scopes.get_unused_register, hun, h]⟩
    | cons a rest =>
      exact ⟨⟨insertDecl g.decls n ⟨a⟩, g.unnamed_reserved_registers⟩,
        by simp [applyScopeOp, Scopes.add_decl, Scopes.get_unused_register, hun, h]⟩
  | reserve =>
    cases hun : s.unused_register with
    | nil =>
      exact ⟨g, by
        simp [applyScopeOp, Scopes.reserve_register, Scopes.get_unused_register, hun, h]⟩
    | cons a rest =>
      exact ⟨g, by
        simp [applyScopeOp, Scopes.reserve_register, Scopes.get_unused_register, hun, h]⟩

theorem applyScopeOps_tail (ops : List ScopeOp) :
    ∀ (s : Scopes) (g : Scope) (r : List Scope), s.scopes = g :: r →
      ∃ g', (applyScopeOps ops s).scopes = g' :: r := by
  induction ops with
  | nil =>
    intro s g r h
    exact ⟨g, by simpa [applyScopeOps] using h⟩
  | cons op rest ih =>
    intro s g r h
    obtain ⟨g', hg⟩ := applyScopeOp_tail op s g r h
    obtain ⟨g'', hg'⟩ := ih (applyScopeOp op s) g' r hg
    exact ⟨g'', by simpa [applyScopeOps] using hg'⟩

set_option maxRecDepth 8000 in
/-- C1 counterexample: after declaring `x` (register 0), entering a scope (which
copies the binding) and leaving it again, register 0 is still bound to the live
declaration `x` in the current scope and yet sits in the free pool — so a register
bound to a live declaration of the parent scope IS in the free pool, falsifying
the claim.  Moreover a successful enter/leave pair around a declaration-free
scope leaves the pool size unchanged, so the pool does not strictly increase on
every successful leave_current_scope either. -/
theorem claim_C1_counterexample :
    ((((Scopes.new.add_decl ("x")).2).enter_new_scope).2.leave_current_scope).1 = .ok () ∧
    scopeRoundtrip.get_var ("x") = .ok ⟨0⟩ ∧
    (0 : Register) ∈ scopeRoundtrip.unused_register ∧
    ((Scopes.new.enter_new_scope).2.leave_current_scope).1 = .ok () ∧
    ((Scopes.new.enter_new_scope).2.leave_current_scope).2.unused_register.length
      = Scopes.new.unused_register.length := by
  decide

/-- C1 (amended): the free pool strictly decreases (by exactly one) on every
successful add_decl or reserve_register; a successful leave_current_scope appends
exactly the popped frame's used registers (its temporaries plus the registers of
all its declarations, inherited ones included) to the pool, so the pool grows by
that count — which may be zero, and may re-add registers still bound to live
declarations of the parent frame, allowing the same register to be issued later
to a second simultaneously-live binding. -/
theorem claim_C1_amended (s : Scopes) :
    (∀ n r, (s.add_decl n).1 = .ok r →
      (s.add_decl n).2.unused_register.length + 1 = s.unused_register.length) ∧
    (∀ r, (s.reserve_register).1 = .ok r →
      (s.reserve_register).2.unused_register.length + 1 = s.unused_register.length) ∧
    (∀ f rest, s.scopes = f :: rest →
      (s.leave_current_scope).1 = .ok () ∧
      (s.leave_current_scope).2.unused_register
        = s.unused_register ++ f.used_registers) := by
  refine ⟨?_, ?_, ?_⟩
  · intro n r h
    cases hun : s.unused_register with
    | nil => simp [Scopes.add_decl, Scopes.get_unused_register, hun] at h
    | cons a rest =>
      cases hsc : s.scopes with
      | nil => simp [Scopes.add_decl, Scopes.get_unused_register, hun, hsc] at h
      | cons f fr => simp [Scopes.add_decl, Scopes.get_unused_register, hun, hsc]
  · intro r h
    cases hun : s.unused_register with
    | nil => simp [Scopes.reserve_register, Scopes.get_unused_register, hun] at h
    | cons a rest => simp [Scopes.reserve_register, Scopes.get_unused_register, hun]
  · intro f rest h
    simp [Scopes.leave_current_scope, h]

/-- C1 witness: the amended claim evaluated on a fresh allocator. -/
theorem claim_C1_witness :
    ((Scopes.new.add_decl ("x")).2.unused_register.length + 1
        = Scopes.new.unused_register.length) ∧
    ((Scopes.new.leave_current_scope).1 = .ok () ∧
      (Scopes.new.leave_current_scope).2.unused_register
        = Scopes.new.unused_register ++ Scope.new.used_registers) :=
  ⟨(claim_C1_amended Scopes.new).1 ("x") 0 (by decide),
   (claim_C1_amended Scopes.new).2.2 Scope.new [] rfl⟩

/-- C2 counterexample: on a freshly constructed Scopes — which holds exactly one
scope frame — leave_current_scope succeeds and empties the scope stack, directly
contradicting the claim that it fails; the repository's own test test_scopes
asserts this very success. -/
theorem claim_C2_counterexample :
    (Scopes.new.leave_current_scope).1 = .ok () ∧
    (Scopes.new.leave_current_scope).2.scopes = [] := by
  decide

/-- C2 (amended): leave_current_scope fails only when no frame remains at all; on
a Scopes holding exactly one frame it succeeds and empties the scope stack, after
which current_scope and any further leave_current_scope fail. -/
theorem claim_C2_amended (s : Scopes) (f : Scope) (h : s.scopes = [f]) :
    (s.leave_current_scope).1 = .ok () ∧
    (s.leave_current_scope).2.scopes = [] ∧
    ((s.leave_current_scope).2.leave_current_scope).1
      = .error (.custom ("Cannot leave inextsiting scope")) ∧
    (s.leave_current_scope).2.current_scope = .error (.custom ("No current scope")) := by
  simp [Scopes.leave_current_scope, Scopes.current_scope, h]

/-- C2 witness: the amended claim evaluated on a fresh allocator. -/
theorem claim_C2_witness :
    (Scopes.new.leave_current_scope).2.scopes = [] ∧
    ((Scopes.new.leave_current_scope).2.leave_current_scope).1
      = .error (.custom ("Cannot leave inextsiting scope")) :=
  ⟨(claim_C2_amended Scopes.new Scope.new rfl).2.1,
   (claim_C2_amended Scopes.new Scope.new rfl).2.2.1⟩

set_option maxRecDepth 8000 in
/-- C3 counterexample: a fresh allocator pool holds only 255 registers — the
source builds the half-open range `(0..Register::max_value())`, i.e. 0..=254 —
so of 256 iterated reserve_register calls on a fresh Scopes the first 255
succeed and the 256th fails with register exhaustion: 256 distinct
simultaneously-live registers are impossible, falsifying the claimed pool limit
of 256. -/
theorem claim_C3_counterexample :
    ((reserveManyResults 256 Scopes.new).1.take 255).all exOk = true ∧
    ((reserveManyResults 256 Scopes.new).1.getLast?.map exOk) = some false := by
  decide

set_option maxRecDepth 8000 in
/-- C3 (amended): every register the allocator issues (via add_decl or
reserve_register, in any reachable allocator state) is a small unsigned integer
below 255, and a fresh Scopes admits exactly 255 successful allocations — the
pool limit is 255 registers (0..=254), not 256. -/
theorem claim_C3_amended :
    (∀ s : Scopes, Reach s →
      (∀ n r, (s.add_decl n).1 = .ok r → r < 255) ∧
      (∀ r, (s.reserve_register).1 = .ok r → r < 255)) ∧
    (reserveManyResults 255 Scopes.new).1.all exOk = true ∧
    ((reserveManyResults 256 Scopes.new).1.getLast?.map exOk) = some false := by
  refine ⟨?_, by decide, by decide⟩
  intro s hs
  obtain ⟨hu, _⟩ := reach_inv hs
  constructor
  · intro n r h
    cases hun : s.unused_register with
    | nil => simp [Scopes.add_decl, Scopes.get_unused_register, hun] at h
    | cons a rest =>
      cases hsc : s.scopes with
      | nil => simp [Scopes.add_decl, Scopes.get_unused_register, hun, hsc] at h
      | cons f fr =>
        have ha : a = r := by
          simpa [Scopes.add_decl, Scopes.get_unused_register, hun, hsc] using h
        exact ha ▸ hu a (by simp [hun])
  · intro r h
    cases hun : s.unused_register with
    | nil => simp [Scopes.reserve_register, Scopes.get_unused_register, hun] at h
    | cons a rest =>
      have ha : a = r := by
        simpa [Scopes.reserve_register, Scopes.get_unused_register, hun] using h
      exact ha ▸ hu a (by simp [hun])

/-- C3 witness: the amended claim evaluated on a fresh allocator. -/
theorem claim_C3_witness :
    (Scopes.new.reserve_register).1 = .ok 0 ∧ (0 : Register) < 255 :=
  ⟨rfl, (claim_C3_amended.1 Scopes.new Reach.new).2 0 rfl⟩

/-- C8: entering a scope, performing any sequence of declarations and register
reservations inside it, and leaving it restores exactly the binding visibility
that existed before entry: get_var afterwards agrees with get_var before on
every name — a name declared only inside the scope is unresolvable again, and a
name declared before entry resolves to its original register. -/
theorem claim_C8 (s : Scopes) (ops : List ScopeOp) (f : Scope) (rest : List Scope)
    (h : s.scopes = f :: rest) :
    ((applyScopeOps ops (s.enter_new_scope).2).leave_current_scope).1 = .ok () ∧
    ∀ n, ((applyScopeOps ops (s.enter_new_scope).2).leave_current_scope).2.get_var n
      = s.get_var n := by
  have h1 : (s.enter_new_scope).2.scopes = (⟨f.decls, []⟩ : Scope) :: (f :: rest) := by
    simp [Scopes.enter_new_scope, Scopes.current_scope, h]
  obtain ⟨g', hg⟩ := applyScopeOps_tail ops _ _ _ h1
  refine ⟨?_, ?_⟩
  · simp [Scopes.leave_current_scope, hg]
  · intro n
    simp [Scopes.leave_current_scope, hg, Scopes.get_var, Scopes.current_scope, h]

/-- C8 witness: declaring globalVar, entering a scope, declaring testVar inside,
and leaving restores the original visibility (mirrors the test_scopes test). -/
theorem claim_C8_witness :
    ((applyScopeOps [ScopeOp.add ("testVar")]
        (((Scopes.new.add_decl ("globalVar")).2).enter_new_scope).2).leave_current_scope).1
      = .ok () ∧
    ((applyScopeOps [ScopeOp.add ("testVar")]
        (((Scopes.new.add_decl ("globalVar")).2).enter_new_scope).2).leave_current_scope).2.get_var
        ("testVar")
      = ((Scopes.new.add_decl ("globalVar")).2).get_var ("testVar") ∧
    ((applyScopeOps [ScopeOp.add ("testVar")]
        (((Scopes.new.add_decl ("globalVar")).2).enter_new_scope).2).leave_current_scope).2.get_var
        ("globalVar")
      = ((Scopes.new.add_decl ("globalVar")).2).get_var ("globalVar") :=
  ⟨(claim_C8 _ [ScopeOp.add ("testVar")] _ [] rfl).1,
   (claim_C8 _ [ScopeOp.add ("testVar")] _ [] rfl).2 ("testVar"),
   (claim_C8 _ [ScopeOp.add ("testVar")] _ [] rfl).2 ("globalVar")⟩

/-- C9: get_throwaway_register peeks the front of the free queue — it takes the
allocator by shared reference, so the allocator state is untouched (reflected in
the embedding by its signature returning no state) — and the register it returns
is exactly the one the next reserve_register or add_decl would allocate. -/
theorem claim_C9 (s : Scopes) (n : String) (r : Register) (rest : List Register)
    (h : s.unused_register = r :: rest) :
    s.get_throwaway_register = .ok r ∧
    (s.reserve_register).1 = .ok r ∧
    (s.scopes ≠ [] → (s.add_decl n).1 = .ok r) := by
  refine ⟨?_, ?_, ?_⟩
  · simp [Scopes.get_throwaway_register, h]
  · simp [Scopes.reserve_register, Scopes.get_unused_register, h]
  · intro hs
    cases hsc : s.scopes with
    | nil => exact absurd hsc hs
    | cons f fr => simp [Scopes.add_decl, Scopes.get_unused_register, h, hsc]

/-- C9 witness: on a fresh allocator the throwaway register is 0, as is the next
allocation. -/
theorem claim_C9_witness :
    Scopes.new.get_throwaway_register = .ok 0 ∧
    (Scopes.new.reserve_register).1 = .ok 0 ∧
    (Scopes.new.scopes ≠ [] → (Scopes.new.add_decl ("x")).1 = .ok 0) :=
  claim_C9 Scopes.new ("x") 0 (rangeFrom 1 254) rfl

/-- C7: when a variable-declaration list fails to lower, the result is the
error of the first failing declarator — every earlier declarator succeeded and
no bytecode is output — and the registers allocated along the way are not
rolled back: the free queue of the error state is a suffix of the original
(nothing was returned to it), every name resolvable after the successful
prefix is still resolvable in the error state, and when the failing declarator
is an identifier whose register allocation succeeded (its initializer failed),
that identifier is bound in the error state as well. -/
theorem claim_C7 (kind : VariableKind) (decls : List VariableDecl)
    (c : BytecodeCompiler) (e : CompilerError)
    (h : (compile_var_decl kind decls c).1 = .error e) :
    ∃ p d rest, decls = p ++ d :: rest ∧
      ∃ bc c₁, compile_var_decl kind p c = (.ok bc, c₁) ∧
        (compile_var_declarator d c₁).1 = .error e ∧
        (compile_var_decl kind decls c).2 = (compile_var_declarator d c₁).2 ∧
        (compile_var_decl kind decls c).2.scopes.unused_register <:+
          c.scopes.unused_register ∧
        (∀ n, exOk (c₁.scopes.get_var n) = true →
          exOk ((compile_var_decl kind decls c).2.scopes.get_var n) = true) ∧
        (∀ nm init, d = .mk (Pat.identifier nm) (some init) →
          exOk ((c₁.scopes.add_decl nm).1) = true →
          exOk ((compile_var_decl kind decls c).2.scopes.get_var nm) = true) := by
  induction decls generalizing c with
  | nil => simp [compile_var_decl] at h
  | cons d rest ih =>
    have hds := compile_var_declarator_state d c
    rcases hd : compile_var_declarator d c with ⟨res, c'⟩
    rw [hd] at hds
    cases res with
    | error e' =>
      have hEq : compile_var_decl kind (d :: rest) c = (.error e', c') := by
        simp only [compile_var_decl, hd]
      rw [hEq] at h ⊢
      have he : e' = e := by simpa using h
      subst he
      exact ⟨[], d, rest, rfl, Bytecode.new, c,
        by simp [compile_var_decl], by rw [hd],
        by rw [hd], hds.1, hds.2.1, hds.2.2⟩
    | ok bc₀ =>
      have hEq : compile_var_decl kind (d :: rest) c =
          (match compile_var_decl kind rest c' with
           | (.error e, c'') => (.error e, c'')
           | (.ok bc', c'') => (.ok (Bytecode.combine bc₀ bc'), c'')) := by
        simp only [compile_var_decl, hd]
      rcases hrest : compile_var_decl kind rest c' with ⟨res2, c''⟩
      cases res2 with
      | ok bc' =>
        rw [hEq, hrest] at h
        simp at h
      | error e2 =>
        rw [hEq, hrest] at h ⊢
        have he : e2 = e := by simpa using h
        subst he
        obtain ⟨p', d', rest', hsplit, bc₁, c₁, hpfx, hfail, h2eq, hsuffix,
          hbind, hbind2⟩ := ih c' (by rw [hrest])
        rw [hrest] at h2eq hsuffix hbind hbind2
        refine ⟨d :: p', d', rest', by rw [hsplit]; rfl, Bytecode.combine bc₀ bc₁,
          c₁, ?_, hfail, h2eq, hsuffix.trans hds.1, hbind, hbind2⟩
        simp only [compile_var_decl, hd, hpfx]

set_option maxRecDepth 10000 in
set_option maxHeartbeats 2000000 in
/-- C7 witness: lowering `var a = 1, b = nope;` from a fresh compiler fails
with the undeclared-identifier error for `nope` at the second declarator, with
`a` lowered successfully first and nothing rolled back. -/
theorem claim_C7_witness :
    ∃ p d rest, c7decls = p ++ d :: rest ∧
      ∃ bc c₁, compile_var_decl VariableKind.Var p BytecodeCompiler.new = (.ok bc, c₁) ∧
        (compile_var_declarator d c₁).1 =
          .error (.custom ("The declaration does not exist: " ++ "nope")) ∧
        (compile_var_decl VariableKind.Var c7decls BytecodeCompiler.new).2 =
          (compile_var_declarator d c₁).2 ∧
        (compile_var_decl VariableKind.Var c7decls BytecodeCompiler.new).2.scopes.unused_register <:+
          BytecodeCompiler.new.scopes.unused_register ∧
        (∀ n, exOk (c₁.scopes.get_var n) = true →
          exOk ((compile_var_decl VariableKind.Var c7decls BytecodeCompiler.new).2.scopes.get_var n) = true) ∧
        (∀ nm init, d = .mk (Pat.identifier nm) (some init) →
          exOk ((c₁.scopes.add_decl nm).1) = true →
          exOk ((compile_var_decl VariableKind.Var c7decls BytecodeCompiler.new).2.scopes.get_var nm) = true) :=
  claim_C7 VariableKind.Var c7decls BytecodeCompiler.new
    (.custom ("The declaration does not exist: " ++ "nope"))
    (by
      simp only [c7decls, new_eval]
      simp [compile_var_decl, compile_var_declarator, compile_expr,
        maybe_compile_expr, fast_path, resolve_target, compile_operand_assignment,
        newLit, Scopes.add_decl, Scopes.get_unused_register, Scopes.get_var,
        Scopes.reserve_register, Scopes.current_scope, rangeFrom, insertDecl,
        lookupDecl, Bytecode.new, Bytecode.add, Bytecode.combine,
        Operand.from_literal, Operand.get_assign_instr_type, Command.new])

/-- C4: for every script whose top-level walk succeeds from a fresh compiler,
the output bytecode is the top-level bytecode followed by exactly one Exit
command followed by every collected function's bytecode in declaration order
when at least one function declaration was encountered, and the top-level
bytecode alone, with no Exit appended, when none was. -/
theorem claim_C4 (parts : List ProgramPart) (bc : Bytecode) (c' : BytecodeCompiler)
    (h : compile_parts parts BytecodeCompiler.new = (.ok bc, c')) :
    (compile (.script parts) BytecodeCompiler.new).1 =
      .ok (if c'.functions.isEmpty then bc
           else Bytecode.combine (Bytecode.add bc (Command.new .Exit []))
             ((c'.functions.map (fun f => f.bytecode)).flatten)) := by
  have hne : funcsNonEmpty c' := by
    have h0 : funcsNonEmpty BytecodeCompiler.new := by
      intro f hm
      rw [new_eval] at hm
      simp [newLit] at hm
    have hp := compile_parts_funcs parts BytecodeCompiler.new h0
    rw [h] at hp
    exact hp
  simp only [compile, h]
  cases hf : c'.functions with
  | nil => simp [hf, Bytecode.combine, Bytecode.add]
  | cons f fs =>
    have hfb : f.bytecode ≠ [] := hne f (by rw [hf]; exact List.mem_cons_self _ _)
    have hflat : ((f :: fs).map (fun g => g.bytecode)).flatten.isEmpty = false := by
      cases hb : f.bytecode with
      | nil => exact absurd hb hfb
      | cons x xs => simp [hb]
    simp [hf, Bytecode.combine, Bytecode.add]
    rw [if_neg (fun hc => hfb hc.1)]

set_option maxRecDepth 10000 in
set_option maxHeartbeats 2000000 in
/-- C4 witness: a script holding one (empty) function declaration compiles to
an Exit command followed by the function's implicit-return body. -/
theorem claim_C4_witness :
    (compile (.script c4parts) BytecodeCompiler.new).1 =
      .ok (if ((compile_parts c4parts BytecodeCompiler.new).2).functions.isEmpty
           then []
           else Bytecode.combine (Bytecode.add [] (Command.new .Exit []))
             ((((compile_parts c4parts BytecodeCompiler.new).2).functions.map
               (fun f => f.bytecode)).flatten)) :=
  claim_C4 c4parts [] ((compile_parts c4parts BytecodeCompiler.new).2)
    (by
      refine Prod.ext ?_ rfl
      simp only [c4parts, new_eval]
      simp [compile_parts, compile_program_part, compile_decl, compile_func,
        bind_func_id, compile_func_params, newLit, Scopes.add_decl,
        Scopes.get_unused_register, Scopes.enter_new_scope, Scopes.current_scope,
        Scopes.leave_current_scope, Scope.used_registers, rangeFrom, insertDecl,
        lookupDecl, Bytecode.new, Bytecode.add, Bytecode.combine,
        Bytecode.last_op_is_return, List.getLast?, Command.new])

/-- C5: the aliasing fast path of maybe_compile_expr.  A bare identifier bound
in the current scope resolves to its existing register with empty bytecode, the
state untouched and any caller hint discarded; otherwise the hint register is
used as lowering target (and returned) when supplied, and when it is not, the
register at the front of the free queue is reserved and used (register
exhaustion errs). -/
theorem claim_C5 (e : Expr) (hint : Option Register) (c : BytecodeCompiler) :
    (∀ nm var, e = .ident nm → c.scopes.get_var nm = .ok var →
      maybe_compile_expr e hint c = (.ok (Bytecode.new, var.register), c)) ∧
    ((∀ nm var, e = .ident nm → c.scopes.get_var nm ≠ .ok var) →
      (∀ treg, hint = some treg →
        maybe_compile_expr e hint c =
          (match compile_expr e treg c with
           | (.error er, c') => (.error er, c')
           | (.ok bc, c') => (.ok (bc, treg), c'))) ∧
      (hint = none →
        (∀ r rest, c.scopes.unused_register = r :: rest →
          maybe_compile_expr e none c =
            (match compile_expr e r
                { c with scopes := { c.scopes with unused_register := rest } } with
             | (.error er, c') => (.error er, c')
             | (.ok bc, c') => (.ok (bc, r), c'))) ∧
        (c.scopes.unused_register = [] →
          (maybe_compile_expr e none c).1 =
            .error (.custom ("All registers are in use. Free up some registers by using less declarations"))))) := by
  constructor
  · intro nm var he hv
    subst he
    have hf : fast_path (.ident nm) hint c = (some Bytecode.new, some var.register) := by
      simp [fast_path, hv]
    rw [maybe_compile_expr.eq_def, hf]
    simp [resolve_target]
  · intro hna
    have hf : fast_path e hint c = (none, hint) := by
      cases e <;> simp [fast_path]
      rename_i nm
      cases hv : c.scopes.get_var nm with
      | ok var => exact absurd hv (hna nm var rfl)
      | error er => rfl
    constructor
    · intro treg ht
      subst ht
      rw [maybe_compile_expr.eq_def, hf]
      simp only [resolve_target]
    · intro ht
      subst ht
      constructor
      · intro r rest hun
        rw [maybe_compile_expr.eq_def, hf]
        simp only [resolve_target, Scopes.reserve_register,
          Scopes.get_unused_register, hun]
      · intro hun
        rw [maybe_compile_expr.eq_def, hf]
        simp [resolve_target, Scopes.reserve_register,
          Scopes.get_unused_register, hun]

set_option maxRecDepth 10000 in
set_option maxHeartbeats 2000000 in
/-- C5 witness: the three branches of the fast-path contract evaluated on
concrete states — a bound identifier resolves with empty bytecode and its own
register ignoring the hint 9; a literal with hint 7 lowers into register 7; a
literal with no hint reserves the queue front. -/
theorem claim_C5_witness :
    maybe_compile_expr (.ident ("x")) (some 9) c10ctx =
      (.ok (Bytecode.new, 0), c10ctx) ∧
    maybe_compile_expr (.literal (.shortNum 5)) (some 7) BytecodeCompiler.new =
      (match compile_expr (.literal (.shortNum 5)) 7 BytecodeCompiler.new with
       | (.error er, c') => (.error er, c')
       | (.ok bc, c') => (.ok (bc, 7), c')) ∧
    maybe_compile_expr (.literal (.shortNum 5)) none BytecodeCompiler.new =
      (match compile_expr (.literal (.shortNum 5)) 0
          { BytecodeCompiler.new with scopes :=
            { BytecodeCompiler.new.scopes with
                unused_register := rangeFrom 1 251 } } with
       | (.error er, c') => (.error er, c')
       | (.ok bc, c') => (.ok (bc, 0), c')) :=
  ⟨by
    have hv : c10ctx.scopes.get_var ("x") = .ok ⟨0⟩ := by
      simp only [c10ctx, new_eval]
      simp [newLit, Scopes.add_decl, Scopes.get_unused_register, Scopes.get_var,
        Scopes.current_scope, rangeFrom, insertDecl, lookupDecl]
    exact (claim_C5 (.ident ("x")) (some 9) c10ctx).1 ("x") ⟨0⟩ rfl hv,
   ((claim_C5 (.literal (.shortNum 5)) (some 7) BytecodeCompiler.new).2
      (fun nm var h => Expr.noConfusion h)).1 7 rfl,
   ((claim_C5 (.literal (.shortNum 5)) none BytecodeCompiler.new).2
      (fun nm var h => Expr.noConfusion h) |>.2 rfl).1 0 (rangeFrom 1 251)
      (by rw [new_eval]; rfl)⟩

set_option maxRecDepth 10000 in
set_option maxHeartbeats 4000000 in
/-- C6: compiling `var x = 1; x++; return x;` from a fresh compiler succeeds
and lowers to exactly a short-integer load of 1 into the register of `x`
(register 0), an Add combining the register of `x` with the cached constant-1
register (253), writing back to the register of `x`, and a return carrying the
register of `x`. -/
theorem claim_C6 :
    (compile c6prog BytecodeCompiler.new).1 =
      .ok [Command.new .LoadNum [.Register 0, .ShortNum 1],
           Command.new .Add [.Register 0, .Register 0, .Register 253],
           Command.new .ReturnBytecodeFunc [.RegistersArray [0]]] ∧
    ((compile c6prog BytecodeCompiler.new).2).scopes.get_var ("x") = .ok ⟨0⟩ ∧
    BytecodeCompiler.new.isa.common_literal_reg CommonLiteral.Num1 = 253 := by
  refine ⟨?_, ?_, by rw [new_eval]; rfl⟩ <;>
    (rw [new_eval]
     simp [c6prog, compile, compile_parts, compile_program_part, compile_decl,
       compile_stmt, compile_var_decl, compile_var_declarator, compile_expr,
       maybe_compile_expr, fast_path, resolve_target, compile_update_expr,
       compile_return_stmt, compile_operand_assignment, newLit, Scopes.add_decl,
       Scopes.get_unused_register, Scopes.get_var, Scopes.get_throwaway_register,
       Scopes.reserve_register, Scopes.current_scope, rangeFrom, insertDecl,
       lookupDecl, Bytecode.new, Bytecode.add, Bytecode.combine,
       InstructionSet.update_op, InstructionSet.common_literal_reg,
       CommonLiteralRegs.reg, CommonLiteral.idx, Operand.from_literal,
       Operand.get_assign_instr_type, Command.new])

set_option maxRecDepth 10000 in
set_option maxHeartbeats 2000000 in
/-- C10 counterexample: lowering the assignment `x = 1` with the caller's
target register 0 — which is exactly the register of the left-hand side `x` —
emits a load whose destination IS the requested target register, so "no
instruction in the emitted bytecode writes the target register" is false as a
universal statement (it fails whenever the target aliases the left operand's
register, e.g. in `var x = (x = 1)`). -/
theorem claim_C10_counterexample :
    (compile_expr c10expr 0 c10ctx).1 =
      .ok [Command.new .LoadNum [.Register 0, .ShortNum 1]] ∧
    c10ctx.scopes.get_var ("x") = .ok ⟨0⟩ ∧
    (Command.new .LoadNum [.Register 0, .ShortNum 1]).dest = some 0 := by
  refine ⟨?_, ?_, rfl⟩ <;>
    (simp only [c10ctx, c10expr, new_eval]
     simp [compile_expr, compile_assignment_expr, maybe_compile_expr, fast_path,
       resolve_target, compile_operand_assignment, newLit, Scopes.add_decl,
       Scopes.get_unused_register, Scopes.get_var, Scopes.reserve_register,
       Scopes.current_scope, rangeFrom, insertDecl, lookupDecl, Bytecode.new,
       Bytecode.add, Bytecode.combine, Operand.from_literal,
       Operand.get_assign_instr_type, Command.new])

set_option maxRecDepth 10000 in
set_option maxHeartbeats 4000000 in
/-- C10 (amended): lowering an assignment or a prefix update expression does
not depend on the caller-requested target register — the result (bytecode and
state) is identical for every requested target — and the computed value is left
in the left-hand/argument operand's own register; the emitted bytecode writes
the requested target only when that target happens to equal the operand's
register.  In particular `var x = 1; var a = ++x;` emits no instruction whose
destination is the register of `a`. -/
theorem claim_C10_amended :
    (∀ (op : AssignmentOperator) (l : AssignmentLeft) (r : Expr)
        (t₁ t₂ : Register) (c : BytecodeCompiler),
      compile_expr (.assignment op l r) t₁ c = compile_expr (.assignment op l r) t₂ c) ∧
    (∀ (op : UpdateOperator) (b : Bool) (a : Expr) (t₁ t₂ : Register)
        (c : BytecodeCompiler),
      compile_expr (.update op b a) t₁ c = compile_expr (.update op b a) t₂ c) ∧
    ((compile c10prog BytecodeCompiler.new).1 =
      .ok [Command.new .LoadNum [.Register 0, .ShortNum 1],
           Command.new .Add [.Register 0, .Register 0, .Register 253]]) ∧
    ((compile c10prog BytecodeCompiler.new).2.scopes.get_var ("a") = .ok ⟨1⟩) ∧
    (∀ cmd ∈ [Command.new .LoadNum [.Register 0, .ShortNum 1],
              Command.new .Add [.Register 0, .Register 0, .Register 253]],
      Command.dest cmd ≠ some 1) := by
  refine ⟨?_, ?_, ?_, ?_, by decide⟩
  · intro op l r t₁ t₂ c
    simp only [compile_expr, compile_assignment_expr.eq_def]
  · intro op b a t₁ t₂ c
    simp only [compile_expr, compile_update_expr.eq_def]
  all_goals
    (rw [new_eval]
     simp [c10prog, compile, compile_parts, compile_program_part, compile_stmt,
       compile_var_decl, compile_var_declarator, compile_expr,
       maybe_compile_expr, fast_path, resolve_target, compile_update_expr,
       compile_operand_assignment, newLit, Scopes.add_decl,
       Scopes.get_unused_register, Scopes.get_var, Scopes.get_throwaway_register,
       Scopes.reserve_register, Scopes.current_scope, rangeFrom, insertDecl,
       lookupDecl, Bytecode.new, Bytecode.add, Bytecode.combine,
       InstructionSet.update_op, InstructionSet.common_literal_reg,
       CommonLiteralRegs.reg, CommonLiteral.idx, Operand.from_literal,
       Operand.get_assign_instr_type, Command.new])

/-- C10 witness: target-independence of update lowering applied at targets 3
and 9, and the no-write-to-register-1 fact applied to the emitted load. -/
theorem claim_C10_witness :
    compile_expr (.update .Increment true (.ident ("x"))) 3 c10ctx =
      compile_expr (.update .Increment true (.ident ("x"))) 9 c10ctx ∧
    Command.dest (Command.new .LoadNum [.Register 0, .ShortNum 1]) ≠ some 1 :=
  ⟨claim_C10_amended.2.1 .Increment true (.ident ("x")) 3 9 c10ctx,
   claim_C10_amended.2.2.2.2 (Command.new .LoadNum [.Register 0, .ShortNum 1])
     (by decide)⟩

end Jsyc
